import Mathlib

/-!
Shallow embedding of the tb-discover agent's command-safety core
(circuit breaker, target validator, command executor's scale action,
insight reporter, audit log, and the Ed25519 signing verifier), with
theorems settling the frozen claims about it.

Modelling conventions:
* Go `time.Time` / Unix timestamps are modelled as `Int` seconds.
* Go maps (`map[K]V`) are modelled as association lists whose update
  operation replaces any previous binding, so lookup of the first
  occurrence coincides with map lookup.
* External primitives (SHA-256, Ed25519, base64) are taken as function
  parameters: the claims depend only on their determinism and, for the
  signing round trip, on decode/encode and sign/verify being inverses.
-/

set_option linter.unusedVariables false

namespace TbDiscover

/-! ## Circuit breaker — src/unnamed/part_005 (package remediation) -/

namespace Remediation

/-- `CircuitBreaker` state: sliding window of remediation times plus the
per-resource cooldown map (`resourceCooldowns` is the assoc-list model of
Go's `map[string]time.Time`). -/
structure CircuitBreaker where
  maxPerHour : Int
  cooldown : Int
  recentTimes : List Int
  resourceCooldowns : List (String × Int)
  deriving Repr, DecidableEq

/-- `NewCircuitBreaker` from the source: empty window, empty cooldown map. -/
def NewCircuitBreaker (maxPerHour : Int) (cooldown : Int) : CircuitBreaker :=
  { maxPerHour := maxPerHour, cooldown := cooldown,
    recentTimes := [], resourceCooldowns := [] }

/-- `resourceKey(kind, namespace, name)` = `kind + "/" + namespace + "/" + name`. -/
def resourceKey (kind nspace name : String) : String :=
  kind ++ "/" ++ nspace ++ "/" ++ name

/-- `pruneOld`: drop the prefix of `recentTimes` strictly before `now - 1h`
(the Go loop advances `i` while `recentTimes[i].Before(cutoff)` and keeps the
suffix, i.e. a `dropWhile`). -/
def CircuitBreaker.pruneOld (cb : CircuitBreaker) (now : Int) : CircuitBreaker :=
  { cb with recentTimes := cb.recentTimes.dropWhile (fun t => decide (t < now - 3600)) }

/-- `IsOpen`: prune, then compare window size with `maxPerHour`.  The pruned
state persists (Go mutates the receiver under the mutex). -/
def CircuitBreaker.IsOpen (cb : CircuitBreaker) (now : Int) : Bool × CircuitBreaker :=
  let cb := cb.pruneOld now
  (decide ((cb.recentTimes.length : Int) ≥ cb.maxPerHour), cb)

/-- `IsOnCooldown`: `time.Since(last) < cooldown` for the resource key, false
when the key is absent. -/
def CircuitBreaker.IsOnCooldown (cb : CircuitBreaker) (now : Int)
    (kind nspace name : String) : Bool :=
  match cb.resourceCooldowns.lookup (resourceKey kind nspace name) with
  | none => false
  | some last => decide (now - last < cb.cooldown)

/-- `Record`: append `now` to the window and overwrite the resource's
cooldown entry (assoc-list update replacing any previous binding). -/
def CircuitBreaker.Record (cb : CircuitBreaker) (now : Int)
    (kind nspace name : String) : CircuitBreaker :=
  { cb with
    recentTimes := cb.recentTimes ++ [now],
    resourceCooldowns :=
      (resourceKey kind nspace name, now) ::
        cb.resourceCooldowns.filter (fun p => p.1 != resourceKey kind nspace name) }

/-- A sequence of `Record` calls, each with its own clock reading. -/
def recordMany (cb : CircuitBreaker) : List (Int × String × String × String) → CircuitBreaker
  | [] => cb
  | (t, k, ns, n) :: rest => recordMany (cb.Record t k ns n) rest

end Remediation

/-! ## Terminal target validator — src/internal/protocol/validate.go -/

namespace Protocol

/-- `TerminalTarget` (protocol package).  The Go field `Namespace` is
renamed `nspace` (`namespace` is a Lean keyword). -/
structure TerminalTarget where
  type : String
  container : String
  pod : String
  nspace : String
  name : String
  shell : String
  runtime : String
  deriving Repr, DecidableEq

/-- Membership in `allowedTargetTypes`. -/
def allowedTargetTypes (t : String) : Bool :=
  t == "host" || t == "lima" || t == "docker" || t == "k8s-pod"

/-- Membership in `allowedShells` (exact paths; empty string allowed). -/
def allowedShells (s : String) : Bool :=
  s == "/bin/bash" || s == "/bin/sh" || s == "/bin/zsh" || s == ""

/-- Membership in `allowedRuntimes`. -/
def allowedRuntimes (r : String) : Bool :=
  r == "docker" || r == "podman" || r == ""

/-- `[a-zA-Z0-9]` (ASCII, as in Go's regexp class). -/
def isAlnum (c : Char) : Bool := c.isAlpha || c.isDigit

/-- A character of the class `[a-zA-Z0-9._-]`. -/
def isNameRestChar (c : Char) : Bool :=
  isAlnum c || c == '.' || c == '_' || c == '-'

/-- Whole-string match of `containerNameRe` = `^[a-zA-Z0-9][a-zA-Z0-9._-]*$`. -/
def containerNameMatch (s : String) : Bool :=
  match s.toList with
  | [] => false
  | c :: rest => isAlnum c && rest.all isNameRestChar

/-- The per-field check inside `ValidateTerminalTarget`'s loop: empty values
are skipped; then the length bound (`len(val)` counts bytes), then the
name regexp.  Returns the error message, `none` when the field passes. -/
def checkField (field val : String) : Option String :=
  if val == "" then none
  else if val.utf8ByteSize > 253 then
    some (field ++ " name too long")
  else if !containerNameMatch val then
    some ("invalid " ++ field ++ " name: " ++ val)
  else none

/-- The loop over the four name fields.  Go iterates the literal map in
unspecified order; whether an error is returned does not depend on that
order (only which message surfaces first), and we fix the source's literal
order container, pod, namespace, name. -/
def checkFields : List (String × String) → Option String
  | [] => none
  | (f, v) :: rest =>
    match checkField f v with
    | some e => some e
    | none => checkFields rest

/-- `ValidateTerminalTarget`: `nil` target passes; then the three allowlists,
then the four name fields.  `some msg` models a non-nil `error`. -/
def ValidateTerminalTarget : Option TerminalTarget → Option String
  | none => none
  | some t =>
    if !allowedTargetTypes t.type then some ("invalid target type: " ++ t.type)
    else if !allowedShells t.shell then some ("invalid shell: " ++ t.shell)
    else if !allowedRuntimes t.runtime then some ("invalid runtime: " ++ t.runtime)
    else checkFields
      [("container", t.container), ("pod", t.pod),
       ("namespace", t.nspace), ("name", t.name)]

/-- Value contains one of `;`, `|`, `&`, space. -/
def hasBadChar (v : String) : Bool :=
  v.toList.any (fun c => c == ';' || c == '|' || c == '&' || c == ' ')

/-- Value begins with `-`. -/
def leadingDash (v : String) : Bool :=
  match v.toList with
  | [] => false
  | c :: _ => c == '-'

/-- Value contains the substring `..` (two consecutive dots). -/
def hasDotDot (v : String) : Bool :=
  (v.toList.zip v.toList.tail).any (fun p => p.1 == '.' && p.2 == '.')

/-- The injection shapes from the claim that the validator does reject in
every field: `;`, `|`, `&`, space, leading `-`, or more than 253 bytes. -/
def badCommon (v : String) : Bool :=
  hasBadChar v || leadingDash v || decide (v.utf8ByteSize > 253)

end Protocol

/-! ## Command executor, scale action — src/internal/commands/executor.go -/

namespace Commands

/-- A decoded JSON parameter value, as `encoding/json` produces into
`map[string]any`: numbers arrive as `float64` (modelled as `ℚ`, exact for
every value the claims touch), strings, booleans, null, or composites. -/
inductive ParamValue where
  | str (s : String)
  | num (x : ℚ)
  | bool (b : Bool)
  | null
  | composite
  deriving Repr, DecidableEq

/-- `Command` (commands package). -/
structure Command where
  id : String
  action : String
  targetKind : String
  targetNamespace : String
  targetName : String
  parameters : List (String × ParamValue)
  deriving Repr, DecidableEq

/-- `CommandResult`; `details` keeps the two integer fields `scale` reports. -/
structure CommandResult where
  success : Bool
  message : String
  details : List (String × Int)
  deriving Repr, DecidableEq

/-- The Kubernetes scale-subresource API calls `scale` can issue, in order. -/
inductive ScaleApiCall where
  | getScale
  | updateScale (replicas : Int)
  deriving Repr, DecidableEq

/-- Go's `int32(f)` for a `float64`: truncation toward zero.  Faithful for
`|f| < 2^31` (out-of-range conversion is implementation-defined in Go and
not modelled). -/
def int32trunc (x : ℚ) : Int :=
  if 0 ≤ x then ⌊x⌋ else ⌈x⌉

/-- `Executor.scale`.  The cluster API is abstracted by `getScaleRes`
(current replicas, `none` = API error) and `updateOk`; the second component
lists the API calls issued.  API error strings (`err.Error()`) are opaque
and modelled by fixed placeholders. -/
def Executor.scale (getScaleRes : Option Int) (updateOk : Bool) (cmd : Command) :
    CommandResult × List ScaleApiCall :=
  match cmd.parameters.lookup "replicas" with
  | none => ({ success := false, message := "missing 'replicas' parameter", details := [] }, [])
  | some raw =>
    match raw with
    | .num x =>
      let newReplicas := int32trunc x
      if newReplicas < 0 then
        ({ success := false,
           message := "invalid replicas value: " ++ toString newReplicas, details := [] }, [])
      else
        match getScaleRes with
        | none =>
          ({ success := false, message := "get scale API error", details := [] },
           [.getScale])
        | some oldReplicas =>
          if updateOk then
            ({ success := true,
               message := "Deployment " ++ cmd.targetNamespace ++ "/" ++ cmd.targetName
                 ++ " scaled from " ++ toString oldReplicas ++ " to " ++ toString newReplicas,
               details := [("old_replicas", oldReplicas), ("new_replicas", newReplicas)] },
             [.getScale, .updateScale newReplicas])
          else
            ({ success := false, message := "update scale API error", details := [] },
             [.getScale, .updateScale newReplicas])
    | other =>
      ({ success := false, message := "invalid replicas value (not a JSON number)",
         details := [] }, [])

end Commands

/-! ## Insights: ClusterInsight, ActiveFingerprints, Reporter
    — src/internal/insights/{types.go,engine.go}, src/unnamed/part_027 -/

namespace Insights

/-- `ClusterInsight` (insights package).  `ProposedParams` is a decoded
JSON map, modelled like command parameters. -/
structure ClusterInsight where
  analyzer : String
  category : String
  severity : String
  title : String
  description : String
  targetKind : String
  targetNS : String
  targetName : String
  fingerprint : String
  proposedAction : String
  proposedParams : List (String × Commands.ParamValue)
  autoRemediable : Bool
  deriving Repr, DecidableEq

/-- `sort.Strings`, modelled as insertion sort (same ascending result). -/
def sortStrings (l : List String) : List String :=
  l.insertionSort (fun a b => a ≤ b)

/-- `strings.Join(l, ",")`. -/
def joinComma : List String → String
  | [] => ""
  | [x] => x
  | x :: xs => x ++ "," ++ joinComma xs

/-- `ActiveFingerprints`: the insights' fingerprints, sorted (duplicates
kept, exactly as the Go slice). -/
def ActiveFingerprints (insights : List ClusterInsight) : List String :=
  sortStrings (insights.map (fun i => i.fingerprint))

/-- `Reporter` state relevant to the claims: the joined fingerprint key of
the last successful sync (initially `""`). -/
structure Reporter where
  lastFingerprints : String
  deriving Repr, DecidableEq

/-- `Reporter.Report`.  `httpOK` abstracts "the POST returned HTTP 200 with
a parseable body".  Result: (performed, new state, number of HTTP requests
issued by this call). -/
def Reporter.Report (r : Reporter) (insights : List ClusterInsight) (httpOK : Bool) :
    Bool × Reporter × Nat :=
  let fpsKey := joinComma (ActiveFingerprints insights)
  if fpsKey == r.lastFingerprints then
    (false, r, 0)
  else if httpOK then
    (true, { lastFingerprints := fpsKey }, 1)
  else
    (false, r, 1)

end Insights

/-! ## Auto-remediator — src/internal/remediation/{remediator_test.go tail,reporter.go} -/

namespace Remediation

/-- `AllowedActions` membership. -/
def AllowedActions (a : String) : Bool :=
  a == "delete_pod" || a == "force_delete_pod" || a == "delete_pvc"

/-- `RemediationResult` (remediation package). -/
structure RemediationResult where
  action : String
  targetKind : String
  targetNamespace : String
  targetName : String
  insightFingerprint : String
  reason : String
  success : Bool
  message : String
  dryRun : Bool
  deriving Repr, DecidableEq

/-- `Remediator.execute`.  The Kubernetes delete calls are abstracted by
`execSucc` (whether the API call for this insight succeeds); API error
strings are opaque and folded into the failure message. -/
def Remediator.execute (execSucc : Insights.ClusterInsight → Bool) (dryRun : Bool)
    (insight : Insights.ClusterInsight) : RemediationResult :=
  let base : RemediationResult :=
    { action := insight.proposedAction,
      targetKind := insight.targetKind,
      targetNamespace := insight.targetNS,
      targetName := insight.targetName,
      insightFingerprint := insight.fingerprint,
      reason := insight.title,
      success := false, message := "", dryRun := dryRun }
  if dryRun then
    { base with success := true,
                message := "[DRY RUN] " ++ insight.proposedAction ++ " skipped" }
  else if !(AllowedActions insight.proposedAction) then
    { base with success := false,
                message := "unknown action: " ++ insight.proposedAction }
  else if execSucc insight then
    { base with success := true,
                message := "auto-remediated: " ++ insight.proposedAction ++ " "
                  ++ insight.targetNS ++ "/" ++ insight.targetName }
  else
    { base with success := false,
                message := "failed to " ++ insight.proposedAction ++ " "
                  ++ insight.targetNS ++ "/" ++ insight.targetName }

/-- `Remediator.Remediate`'s loop.  Each list element pairs the insight with
the clock reading for its iteration (Go samples `time.Now()` during the
iteration).  Skips non-auto-remediable and disallowed actions; breaks out
entirely when the breaker is open; skips resources on cooldown; records
successful non-dry-run executions. -/
def Remediator.remediate (execSucc : Insights.ClusterInsight → Bool) (dryRun : Bool) :
    List (Insights.ClusterInsight × Int) → CircuitBreaker →
      List RemediationResult × CircuitBreaker
  | [], cb => ([], cb)
  | (insight, now) :: rest, cb =>
    if !insight.autoRemediable then
      Remediator.remediate execSucc dryRun rest cb
    else if !(AllowedActions insight.proposedAction) then
      Remediator.remediate execSucc dryRun rest cb
    else
      let (opn, cb) := cb.IsOpen now
      if opn then ([], cb)
      else if cb.IsOnCooldown now insight.targetKind insight.targetNS insight.targetName then
        Remediator.remediate execSucc dryRun rest cb
      else
        let result := Remediator.execute execSucc dryRun insight
        let cb :=
          if result.success && !dryRun then
            cb.Record now insight.targetKind insight.targetNS insight.targetName
          else cb
        let (results, cb') := Remediator.remediate execSucc dryRun rest cb
        (result :: results, cb')

end Remediation

/-! ## Audit log — src/unnamed/part_024 (logger), src/unnamed/part_025 (entry) -/

namespace Audit

/-- `AuditEntry`.  `time.Time` is an `Int` (0 = Go's zero time). -/
structure AuditEntry where
  timestamp : Int
  sessionID : String
  eventType : String
  userID : String
  origin : String
  input : String
  reason : String
  entryHash : String
  deriving Repr, DecidableEq

/-- `json.Marshal` of an `AuditEntry`: fields in struct order; `user_id`,
`origin`, `input`, `reason` carry `omitempty`.  The exact JSON text shapes
(quoting, RFC3339 time) are irrelevant to the chain claims, which only need
the serialisation to be a function of the entry; braces are written with
escapes only to keep the embedding printable. -/
def serializeAuditEntry (e : AuditEntry) : String :=
  "\x7b\"timestamp\":" ++ toString e.timestamp
    ++ ",\"session_id\":\"" ++ e.sessionID ++ "\""
    ++ ",\"event_type\":\"" ++ e.eventType ++ "\""
    ++ (if e.userID == "" then "" else ",\"user_id\":\"" ++ e.userID ++ "\"")
    ++ (if e.origin == "" then "" else ",\"origin\":\"" ++ e.origin ++ "\"")
    ++ (if e.input == "" then "" else ",\"input\":\"" ++ e.input ++ "\"")
    ++ (if e.reason == "" then "" else ",\"reason\":\"" ++ e.reason ++ "\"")
    ++ ",\"entry_hash\":\"" ++ e.entryHash ++ "\"\x7d"

/-- `AuditLogger` state: running previous hash plus the lines written so
far, kept as parsed entries (JSON-lines round-trip is identity on this
struct). -/
structure LoggerState where
  prevHash : String
  entries : List AuditEntry
  deriving Repr, DecidableEq

/-- `AuditLogger.Log`, parameterised by the hash primitive `hash`
(hex-encoded SHA-256 of the concatenation, `fmt.Sprintf("%x", sha256.Sum256(...))`):
stamp a zero timestamp with `now`, blank `entry_hash`, serialise, chain-hash
with `prevHash`, write the hash back, append. -/
def LoggerState.log (hash : String → String) (st : LoggerState) (now : Int)
    (entry : AuditEntry) : LoggerState :=
  let entry := if entry.timestamp == 0 then { entry with timestamp := now } else entry
  let blanked := { entry with entryHash := "" }
  let raw := serializeAuditEntry blanked
  let h := hash (st.prevHash ++ raw)
  let final := { blanked with entryHash := h }
  { prevHash := h, entries := st.entries ++ [final] }

/-- A finite sequence of `Log` calls (each with its wall-clock reading). -/
def LoggerState.logMany (hash : String → String) (st : LoggerState) :
    List (Int × AuditEntry) → LoggerState
  | [] => st
  | (now, e) :: rest => (st.log hash now e).logMany hash rest

/-- The logger state over an empty (or absent) file: `prevHash = ""`. -/
def freshLogger : LoggerState := { prevHash := "", entries := [] }

/-- Reading the file back and recomputing every hash from scratch: each
stored `entry_hash` must equal the hash of the previous stored hash
concatenated with the line's serialisation with `entry_hash` blanked. -/
def chainOK (hash : String → String) (prev : String) : List AuditEntry → Bool
  | [] => true
  | e :: rest =>
    (e.entryHash == hash (prev ++ serializeAuditEntry { e with entryHash := "" }))
      && chainOK hash e.entryHash rest

/-- The hash the next entry must chain from: the last stored `entry_hash`,
or the initial hash when no line exists. -/
def lastHash (prev : String) (l : List AuditEntry) : String :=
  ((l.getLast?).map (fun e => e.entryHash)).getD prev

end Audit

/-! ## Signing verifier — src/unnamed/part_006 (package signing)

JSON documents are modelled as parsed trees in which object fields keep the
encoding's key order; a `none` at the outer level models bytes that fail to
parse at all.  Go's `map[string]json.RawMessage` round trip
(`json.Unmarshal` then `json.Marshal`) keeps the last value for a duplicated
key and re-emits fields with sorted keys, nested value bytes untouched.
The Ed25519 and base64 primitives are abstract function parameters
(`edSign`/`edVerify`, `encodeSig`/`decodeSig`); string escaping inside the
serialiser is elided (the claims need the serialisation only as a function
of the tree). -/

namespace Signing

/-- A parsed JSON document.  `obj` keeps fields in encoding order. -/
inductive Json where
  | null : Json
  | bool (b : Bool) : Json
  | num (n : Int) : Json
  | str (s : String) : Json
  | arr (elems : List Json) : Json
  | obj (fields : List (String × Json)) : Json

mutual

/-- Serialisation of a JSON tree, compact, fields in stored order (this is
what `json.Marshal` produces for the already-ordered trees we feed it;
braces are escape-written to keep the file printable). -/
def Json.ser : Json → String
  | .null => "null"
  | .bool b => if b then "true" else "false"
  | .num n => toString n
  | .str s => "\"" ++ s ++ "\""
  | .arr elems => "[" ++ Json.serArr elems ++ "]"
  | .obj fields => "\x7b" ++ Json.serObj fields ++ "\x7d"

/-- Comma-joined serialisation of array elements. -/
def Json.serArr : List Json → String
  | [] => ""
  | [x] => x.ser
  | x :: y :: rest => x.ser ++ "," ++ Json.serArr (y :: rest)

/-- Comma-joined serialisation of object fields. -/
def Json.serObj : List (String × Json) → String
  | [] => ""
  | [(k, v)] => "\"" ++ k ++ "\":" ++ v.ser
  | (k, v) :: p :: rest => "\"" ++ k ++ "\":" ++ v.ser ++ "," ++ Json.serObj (p :: rest)

end

/-- Key ordering on object fields (Go `json.Marshal` sorts map keys). -/
def keyLE (p q : String × Json) : Prop := p.1 ≤ q.1

instance : DecidableRel keyLE := fun p q => inferInstanceAs (Decidable (p.1 ≤ q.1))

instance : IsTotal (String × Json) keyLE := ⟨fun p q => le_total p.1 q.1⟩

instance : IsTrans (String × Json) keyLE := ⟨fun _ _ _ h1 h2 => le_trans h1 h2⟩

/-- No two fields share a key (the invariant of every list produced by a Go
map round trip). -/
def keysNodup (fields : List (String × Json)) : Prop :=
  (fields.map Prod.fst).Nodup

/-- Sorting object fields by key, as `json.Marshal` does for a map. -/
def sortFields (fields : List (String × Json)) : List (String × Json) :=
  fields.insertionSort keyLE

/-- Key membership in a field list. -/
def keyMem (k : String) (fields : List (String × Json)) : Bool :=
  fields.any (fun p => p.1 == k)

/-- Last-occurrence lookup: decoding into a Go map keeps the last value for
a duplicated key. -/
def lookupLast : List (String × Json) → String → Option Json
  | [], _ => none
  | p :: rest, k =>
    match lookupLast rest k with
    | some v => some v
    | none => if p.1 == k then some p.2 else none

/-- Deduplication keeping the last occurrence of each key (the map built by
`json.Unmarshal` into `map[string]json.RawMessage`). -/
def dedupLast : List (String × Json) → List (String × Json)
  | [] => []
  | p :: rest => if keyMem p.1 rest then dedupLast rest else p :: dedupLast rest

/-- The five envelope field names stripped before signing. -/
def signingKeys : List String :=
  ["signature", "timestamp", "nonce", "user_id", "origin"]

/-- `delete(m, k)` for the five signing keys. -/
def removeSigningKeys (fields : List (String × Json)) : List (String × Json) :=
  fields.filter (fun p => !(signingKeys.contains p.1))

/-- `stripSigningFields`: unmarshal into a map (dedup last), delete the five
envelope keys, re-marshal (sorted keys, nested bytes untouched); non-object
input is returned unchanged (the unmarshal error path). -/
def stripSigningFields (j : Json) : Json :=
  match j with
  | .obj fields => .obj (sortFields (removeSigningKeys (dedupLast fields)))
  | other => other

/-- `normalizeJSON`: map round trip re-marshalling with sorted keys;
non-object input unchanged. -/
def normalizeJSON (j : Json) : Json :=
  match j with
  | .obj fields => .obj (sortFields (dedupLast fields))
  | other => other

/-- The canonical `SignedPayload` object: struct fields marshal in
declaration order `command, timestamp, nonce, user_id, origin`. -/
def payloadJson (command : Json) (timestamp : Int) (nonce userID origin : String) : Json :=
  .obj [("command", command), ("timestamp", .num timestamp), ("nonce", .str nonce),
        ("user_id", .str userID), ("origin", .str origin)]

/-- The canonical bytes that are signed / verified. -/
def canonicalOf (command : Json) (timestamp : Int) (nonce userID origin : String) : String :=
  (payloadJson command timestamp nonce userID origin).ser

/-- `SignedEnvelope` after `json.Unmarshal`: missing fields take their zero
value. -/
structure SignedEnvelope where
  signature : String
  timestamp : Int
  nonce : String
  userID : String
  origin : String
  deriving Repr, DecidableEq

/-- Unmarshal a string-typed envelope field: absent or JSON `null` leaves
the zero value; a value of any other non-string type is an unmarshal
error. -/
def getStringField (fields : List (String × Json)) (k : String) : Option String :=
  match lookupLast fields k with
  | none => some ""
  | some (.str s) => some s
  | some .null => some ""
  | some other => none

/-- Unmarshal an int64-typed envelope field (fractional JSON numbers are not
representable in this model; they would also be unmarshal errors in Go). -/
def getIntField (fields : List (String × Json)) (k : String) : Option Int :=
  match lookupLast fields k with
  | none => some 0
  | some (.num n) => some n
  | some .null => some 0
  | some other => none

/-- `json.Unmarshal(raw, &env)`: `none` is the malformed-JSON error path. -/
def parseEnvelope (j : Json) : Option SignedEnvelope :=
  match j with
  | .obj fields =>
    match getStringField fields "signature", getIntField fields "timestamp",
          getStringField fields "nonce", getStringField fields "user_id",
          getStringField fields "origin" with
    | some sg, some ts, some nn, some uid, some org =>
      some { signature := sg, timestamp := ts, nonce := nn, userID := uid, origin := org }
    | _, _, _, _, _ => none
  | other => none

/-- `MaxTimestampAge` in seconds. -/
def MaxTimestampAge : Int := 30

/-- `|now - timestamp|` as computed in `Verify`. -/
def ageOf (now timestamp : Int) : Int :=
  if now - timestamp < 0 then -(now - timestamp) else now - timestamp

/-- `NonceStore`: nonce → first-seen time, TTL, last-GC time. -/
structure NonceStore where
  nonces : List (String × Int)
  ttl : Int
  lastGC : Int
  deriving Repr, DecidableEq

/-- `NewNonceStore` at creation time `now`. -/
def NewNonceStore (ttl now : Int) : NonceStore :=
  { nonces := [], ttl := ttl, lastGC := now }

/-- The opportunistic GC at the top of `NonceStore.Add`: when the last GC is
older than the TTL, drop every entry older than the TTL. -/
def NonceStore.gc (ns : NonceStore) (now : Int) : NonceStore :=
  if now - ns.lastGC > ns.ttl then
    { ns with nonces := ns.nonces.filter (fun p => !decide (now - p.2 > ns.ttl)),
              lastGC := now }
  else ns

/-- `NonceStore.Add`: GC, then insert-if-new.  Returns (isNew, new store). -/
def NonceStore.Add (ns : NonceStore) (nonce : String) (now : Int) : Bool × NonceStore :=
  match (ns.gc now).nonces.lookup nonce with
  | some _ => (false, ns.gc now)
  | none => (true, { ns.gc now with nonces := (nonce, now) :: (ns.gc now).nonces })

/-- `VerificationResult`. -/
structure VerificationResult where
  valid : Bool
  reason : String
  userID : String
  origin : String
  timestamp : Int
  deriving Repr, DecidableEq

/-- `Verifier.Verify`, parameterised by the base64 signature decoding
(`decodeSig`, standard then raw encoding; `none` = both fail) and the
Ed25519 primitive `edVerify canonicalBytes sigBytes` for the verifier's
public key.  `raw = none` models bytes that are not valid JSON; the exact
Go error text interpolated into the invalid-JSON reason is opaque.
Returns (command, result, nonce store). -/
def Verifier.Verify (decodeSig : String → Option String)
    (edVerify : String → String → Bool) (now : Int)
    (raw : Option Json) (store : NonceStore) :
    Option Json × VerificationResult × NonceStore :=
  match raw with
  | none =>
    (none, { valid := false, reason := "invalid JSON", userID := "", origin := "",
             timestamp := 0 }, store)
  | some j =>
    match parseEnvelope j with
    | none =>
      (none, { valid := false, reason := "invalid JSON", userID := "", origin := "",
               timestamp := 0 }, store)
    | some env =>
      if env.signature == "" then
        (none, { valid := false, reason := "missing signature", userID := "",
                 origin := "", timestamp := 0 }, store)
      else if env.nonce == "" then
        (none, { valid := false, reason := "missing nonce", userID := "",
                 origin := "", timestamp := 0 }, store)
      else if ageOf now env.timestamp > MaxTimestampAge then
        (none, { valid := false,
                 reason := "timestamp too old or in future: age="
                   ++ toString (ageOf now env.timestamp) ++ "s, max="
                   ++ toString MaxTimestampAge ++ "s",
                 userID := env.userID, origin := env.origin,
                 timestamp := env.timestamp }, store)
      else
        match store.Add env.nonce now with
        | (false, store') =>
          (none, { valid := false, reason := "duplicate nonce (replay detected)",
                   userID := env.userID, origin := env.origin,
                   timestamp := env.timestamp }, store')
        | (true, store') =>
          let command := stripSigningFields j
          let canonical := canonicalOf command env.timestamp env.nonce env.userID env.origin
          match decodeSig env.signature with
          | none =>
            (none, { valid := false, reason := "invalid signature encoding",
                     userID := "", origin := "", timestamp := 0 }, store')
          | some sig =>
            if edVerify canonical sig then
              (some command, { valid := true, reason := "", userID := env.userID,
                               origin := env.origin, timestamp := env.timestamp }, store')
            else
              (none, { valid := false, reason := "signature verification failed",
                       userID := env.userID, origin := env.origin,
                       timestamp := env.timestamp }, store')

/-- `m[k] = v` on a decoded map, then the eventual marshal order is restored
by `sortFields`; modelled as remove-then-append. -/
def setField (fields : List (String × Json)) (k : String) (v : Json) :
    List (String × Json) :=
  fields.filter (fun p => p.1 != k) ++ [(k, v)]

/-- Setting the five envelope fields on the command map, as `Sign` does. -/
def setSigningFields (fields : List (String × Json)) (sig : String)
    (timestamp : Int) (nonce userID origin : String) : List (String × Json) :=
  setField (setField (setField (setField (setField fields
    "signature" (.str sig)) "timestamp" (.num timestamp)) "nonce" (.str nonce))
    "user_id" (.str userID)) "origin" (.str origin)

/-- `Sign` (the SaaS side): normalise the command, serialise the canonical
payload, sign it, then merge the envelope fields into the command map and
marshal.  A non-object command is the unmarshal-error path (`nil, err`). -/
def Sign (edSign : String → String) (encodeSig : String → String)
    (command : Json) (timestamp : Int) (nonce userID origin : String) : Option Json :=
  match normalizeJSON command with
  | .obj fields =>
    let canonical := canonicalOf (.obj fields) timestamp nonce userID origin
    let sig := encodeSig (edSign canonical)
    some (.obj (sortFields (setSigningFields fields sig timestamp nonce userID origin)))
  | other => none

/-- `commandObject j` holds when `j` is a JSON object none of whose
top-level keys is one of the five envelope field names — the shape of an
inner command wrapped by an envelope. -/
def commandObject : Json → Bool
  | .obj fields => fields.all (fun p => !(signingKeys.contains p.1))
  | other => false

mutual

/-- Recursive canonicalisation: sort object keys at every depth.  Two
encodings of the same object that differ only in key order canonicalise
identically. -/
def Json.canon : Json → Json
  | .null => .null
  | .bool b => .bool b
  | .num n => .num n
  | .str s => .str s
  | .arr elems => .arr (Json.canonArr elems)
  | .obj fields => .obj (sortFields (Json.canonObj fields))

/-- `canon` mapped over array elements. -/
def Json.canonArr : List Json → List Json
  | [] => []
  | x :: rest => x.canon :: Json.canonArr rest

/-- `canon` mapped over field values. -/
def Json.canonObj : List (String × Json) → List (String × Json)
  | [] => []
  | (k, v) :: rest => (k, v.canon) :: Json.canonObj rest

end

/-- Two JSON encodings differ only in object key ordering (at any nesting
depth) iff they canonicalise identically. -/
def KeyReorder (a b : Json) : Prop := a.canon = b.canon

/-- The nonce-store evolution of a sequence of `Verify` calls (each with its
own clock reading and raw message). -/
def verifyMany (decodeSig : String → Option String)
    (edVerify : String → String → Bool) :
    List (Int × Option Json) → NonceStore → NonceStore
  | [], store => store
  | (now, raw) :: rest, store =>
    verifyMany decodeSig edVerify rest (Verifier.Verify decodeSig edVerify now raw store).2.2

end Signing

/-! ## Theorems -/

/-! ### List helpers -/

theorem dropWhile_eq_self_of_forall_neg {α : Type} {p : α → Bool} :
    ∀ {l : List α}, (∀ a ∈ l, p a = false) → l.dropWhile p = l
  | [], _ => rfl
  | a :: t, h => by
    have ha : p a = false := h a (List.mem_cons_self a t)
    simp [List.dropWhile_cons, ha]

theorem dropWhile_length_le {α : Type} (p : α → Bool) :
    ∀ l : List α, (l.dropWhile p).length ≤ l.length
  | [] => Nat.le_refl _
  | a :: t => by
    rw [List.dropWhile_cons]
    by_cases hp : p a = true
    · simp only [hp, if_true]
      exact Nat.le_succ_of_le (dropWhile_length_le p t)
    · simp [hp]

/-! ### C5: breaker boundary -/

namespace Remediation

theorem recordMany_recentTimes :
    ∀ (calls : List (Int × String × String × String)) (cb : CircuitBreaker),
      (recordMany cb calls).recentTimes = cb.recentTimes ++ calls.map (fun c => c.1)
  | [], cb => by simp [recordMany]
  | (t, k, ns, n) :: rest, cb => by
    rw [recordMany, recordMany_recentTimes rest]
    simp [CircuitBreaker.Record]

theorem recordMany_maxPerHour :
    ∀ (calls : List (Int × String × String × String)) (cb : CircuitBreaker),
      (recordMany cb calls).maxPerHour = cb.maxPerHour
  | [], cb => rfl
  | (t, k, ns, n) :: rest, cb => by
    rw [recordMany, recordMany_maxPerHour rest]
    rfl

theorem CircuitBreaker.IsOpen_fst (cb : CircuitBreaker) (now : Int) :
    (cb.IsOpen now).1 =
      decide ((((cb.recentTimes.dropWhile (fun t => decide (t < now - 3600))).length : Int))
        ≥ cb.maxPerHour) := rfl

end Remediation

/-- Claim C5: with `maxPerHour = N ≥ 1`, after exactly `N` `Record` calls
all within the last hour of the `IsOpen` query, `IsOpen` returns `true`;
after only `N - 1` calls it returns `false`. -/
theorem c5_breaker_boundary (N : Int) (hN : 1 ≤ N) (cooldown : Int)
    (callsN callsN1 : List (Int × String × String × String)) (now : Int)
    (hwin : ∀ c ∈ callsN, now - c.1 ≤ 3600)
    (hlenN : (callsN.length : Int) = N)
    (hlenN1 : (callsN1.length : Int) = N - 1) :
    ((Remediation.recordMany (Remediation.NewCircuitBreaker N cooldown) callsN).IsOpen now).1
        = true ∧
    ((Remediation.recordMany (Remediation.NewCircuitBreaker N cooldown) callsN1).IsOpen now).1
        = false := by
  constructor
  · have htimes := Remediation.recordMany_recentTimes callsN
      (Remediation.NewCircuitBreaker N cooldown)
    have hmax := Remediation.recordMany_maxPerHour callsN
      (Remediation.NewCircuitBreaker N cooldown)
    have hall : ∀ t ∈ (Remediation.NewCircuitBreaker N cooldown).recentTimes
        ++ callsN.map (fun c => c.1), (fun t => decide (t < now - 3600)) t = false := by
      intro t ht
      simp only [Remediation.NewCircuitBreaker, List.nil_append, List.mem_map] at ht
      obtain ⟨c, hc, rfl⟩ := ht
      have := hwin c hc
      simp only [decide_eq_false_iff_not, not_lt]
      omega
    rw [Remediation.CircuitBreaker.IsOpen_fst, htimes, hmax,
      dropWhile_eq_self_of_forall_neg hall]
    simp only [Remediation.NewCircuitBreaker, List.nil_append, List.length_map,
      decide_eq_true_eq, ge_iff_le]
    omega
  · have htimes := Remediation.recordMany_recentTimes callsN1
      (Remediation.NewCircuitBreaker N cooldown)
    have hmax := Remediation.recordMany_maxPerHour callsN1
      (Remediation.NewCircuitBreaker N cooldown)
    rw [Remediation.CircuitBreaker.IsOpen_fst, htimes, hmax]
    simp only [Remediation.NewCircuitBreaker, List.nil_append, decide_eq_false_iff_not,
      ge_iff_le, not_le]
    have hle := dropWhile_length_le (fun t => decide (t < now - 3600))
      (callsN1.map (fun c => c.1))
    simp only [List.length_map] at hle
    omega

/-- Witness for C5 at `N = 2`: two in-window records open the breaker, one
leaves it closed. -/
theorem c5_breaker_boundary_witness :
    ((Remediation.recordMany (Remediation.NewCircuitBreaker 2 1800)
        [(10, "Pod", "default", "a"), (20, "Pod", "default", "b")]).IsOpen 100).1 = true ∧
    ((Remediation.recordMany (Remediation.NewCircuitBreaker 2 1800)
        [(10, "Pod", "default", "a")]).IsOpen 100).1 = false :=
  c5_breaker_boundary 2 (by decide) 1800 _ _ 100 (by decide) (by decide) (by decide)

/-! ### C7: remediator consults breaker, stops when open -/

/-- Claim C7: the circuit breaker is consulted before executing each
eligible insight and, once open, iteration stops entirely (no further
results for the rest of the list); in particular, with `maxPerHour = 2` and
three auto-remediable `delete_pod` insights on three pods with distinct
resource keys, none on cooldown, exactly the first two are executed and the
third is skipped. -/
theorem c7_remediator_breaker :
    (∀ (execSucc : Insights.ClusterInsight → Bool) (dryRun : Bool)
       (insight : Insights.ClusterInsight) (now : Int)
       (rest : List (Insights.ClusterInsight × Int)) (cb : Remediation.CircuitBreaker),
       insight.autoRemediable = true →
       Remediation.AllowedActions insight.proposedAction = true →
       (cb.IsOpen now).1 = true →
       (Remediation.Remediator.remediate execSucc dryRun ((insight, now) :: rest) cb).1
         = []) ∧
    (∀ (execSucc : Insights.ClusterInsight → Bool) (i1 i2 i3 : Insights.ClusterInsight)
       (t1 t2 t3 cooldown : Int),
       i1.autoRemediable = true → i2.autoRemediable = true → i3.autoRemediable = true →
       i1.proposedAction = "delete_pod" → i2.proposedAction = "delete_pod" →
       i3.proposedAction = "delete_pod" →
       execSucc i1 = true → execSucc i2 = true →
       Remediation.resourceKey i2.targetKind i2.targetNS i2.targetName ≠
         Remediation.resourceKey i1.targetKind i1.targetNS i1.targetName →
       t1 ≤ t2 → t2 ≤ t3 → t3 - t1 ≤ 3600 →
       (Remediation.Remediator.remediate execSucc false
           [(i1, t1), (i2, t2), (i3, t3)] (Remediation.NewCircuitBreaker 2 cooldown)).1 =
         [Remediation.Remediator.execute execSucc false i1,
          Remediation.Remediator.execute execSucc false i2]) := by
  constructor
  · intro execSucc dryRun insight now rest cb hrem hact hopen
    rcases hcb : cb.IsOpen now with ⟨opn, cb2⟩
    rw [hcb] at hopen
    simp only at hopen
    subst hopen
    simp [Remediation.Remediator.remediate, hrem, hact, hcb]
  · intro execSucc i1 i2 i3 t1 t2 t3 cooldown hr1 hr2 hr3 ha1 ha2 ha3 hs1 hs2 hne h12 h23 h13
    have hd12 : decide (t1 < t2 - 3600) = false := decide_eq_false_iff_not.mpr (by omega)
    have hd13 : decide (t1 < t3 - 3600) = false := decide_eq_false_iff_not.mpr (by omega)
    have hbeq : (Remediation.resourceKey i2.targetKind i2.targetNS i2.targetName ==
        Remediation.resourceKey i1.targetKind i1.targetNS i1.targetName) = false :=
      beq_eq_false_iff_ne.mpr hne
    norm_num [Remediation.Remediator.remediate, Remediation.Remediator.execute,
      Remediation.CircuitBreaker.IsOpen, Remediation.CircuitBreaker.pruneOld,
      Remediation.CircuitBreaker.IsOnCooldown, Remediation.CircuitBreaker.Record,
      Remediation.NewCircuitBreaker, Remediation.AllowedActions,
      hr1, hr2, hr3, ha1, ha2, ha3, hs1, hs2, hd12, hd13, hbeq, List.lookup,
      List.dropWhile_cons]

/-- Witness for C7: a concrete three-insight run executing exactly two. -/
theorem c7_remediator_breaker_witness :
    (Remediation.Remediator.remediate (fun _ => true) false
        [({ analyzer := "stale_pods", category := "hygiene", severity := "suggestion",
            title := "t1", description := "", targetKind := "Pod", targetNS := "default",
            targetName := "pod-1", fingerprint := "fp1", proposedAction := "delete_pod",
            proposedParams := [], autoRemediable := true }, 0),
         ({ analyzer := "stale_pods", category := "hygiene", severity := "suggestion",
            title := "t2", description := "", targetKind := "Pod", targetNS := "default",
            targetName := "pod-2", fingerprint := "fp2", proposedAction := "delete_pod",
            proposedParams := [], autoRemediable := true }, 1),
         ({ analyzer := "stale_pods", category := "hygiene", severity := "suggestion",
            title := "t3", description := "", targetKind := "Pod", targetNS := "default",
            targetName := "pod-3", fingerprint := "fp3", proposedAction := "delete_pod",
            proposedParams := [], autoRemediable := true }, 2)]
        (Remediation.NewCircuitBreaker 2 1800)).1 =
      [Remediation.Remediator.execute (fun _ => true) false
         { analyzer := "stale_pods", category := "hygiene", severity := "suggestion",
           title := "t1", description := "", targetKind := "Pod", targetNS := "default",
           targetName := "pod-1", fingerprint := "fp1", proposedAction := "delete_pod",
           proposedParams := [], autoRemediable := true },
       Remediation.Remediator.execute (fun _ => true) false
         { analyzer := "stale_pods", category := "hygiene", severity := "suggestion",
           title := "t2", description := "", targetKind := "Pod", targetNS := "default",
           targetName := "pod-2", fingerprint := "fp2", proposedAction := "delete_pod",
           proposedParams := [], autoRemediable := true }] :=
  c7_remediator_breaker.2 (fun _ => true) _ _ _ 0 1 2 1800 rfl rfl rfl rfl rfl rfl rfl rfl
    (by decide) (by decide) (by decide) (by decide)

/-! ### C6: per-resource cooldown -/

/-- Claim C6 counterexample: `resourceKey` joins components with `/`, so the
triple `("a", "b/c", "d")`, distinct from `("a/b", "c", "d")` and never
recorded, is nonetheless reported on cooldown immediately after
`Record("a/b", "c", "d")`. -/
theorem c6_cooldown_counterexample :
    (("a", "b/c", "d") ≠ (("a/b" : String), ("c" : String), ("d" : String))) ∧
    ((Remediation.NewCircuitBreaker 100 10).Record 0 "a/b" "c" "d").IsOnCooldown 0
        "a" "b/c" "d" = true := by
  constructor
  · decide
  · rfl

/-- Claim C6 (amended): after `Record(K, NS, N)` with a positive cooldown,
`IsOnCooldown(K, NS, N)` is true exactly while `now - t0 < cooldown`; and it
is false for every triple whose joined resource key differs from that of
`(K, NS, N)` (distinct triples may collide when components contain `/`). -/
theorem c6_cooldown (K NS N : String) (cooldown t0 maxPerHour : Int)
    (hpos : 0 < cooldown) :
    (∀ now, now - t0 < cooldown →
      ((Remediation.NewCircuitBreaker maxPerHour cooldown).Record t0 K NS N).IsOnCooldown
        now K NS N = true) ∧
    (∀ now, cooldown ≤ now - t0 →
      ((Remediation.NewCircuitBreaker maxPerHour cooldown).Record t0 K NS N).IsOnCooldown
        now K NS N = false) ∧
    (∀ K' NS' N', Remediation.resourceKey K' NS' N' ≠ Remediation.resourceKey K NS N →
      ∀ now,
        ((Remediation.NewCircuitBreaker maxPerHour cooldown).Record t0 K NS N).IsOnCooldown
          now K' NS' N' = false) := by
  refine ⟨?_, ?_, ?_⟩
  · intro now h
    simp [Remediation.CircuitBreaker.IsOnCooldown, Remediation.CircuitBreaker.Record,
      Remediation.NewCircuitBreaker, List.lookup, h]
  · intro now h
    simp [Remediation.CircuitBreaker.IsOnCooldown, Remediation.CircuitBreaker.Record,
      Remediation.NewCircuitBreaker, List.lookup]
    omega
  · intro K' NS' N' hne now
    have hbeq : (Remediation.resourceKey K' NS' N' == Remediation.resourceKey K NS N) = false :=
      beq_eq_false_iff_ne.mpr hne
    simp [Remediation.CircuitBreaker.IsOnCooldown, Remediation.CircuitBreaker.Record,
      Remediation.NewCircuitBreaker, List.lookup, hbeq]

/-- Witness for C6 at a concrete record. -/
theorem c6_cooldown_witness :
    ((Remediation.NewCircuitBreaker 5 600).Record 0 "Pod" "default" "p1").IsOnCooldown
        0 "Pod" "default" "p1" = true ∧
    ((Remediation.NewCircuitBreaker 5 600).Record 0 "Pod" "default" "p1").IsOnCooldown
        600 "Pod" "default" "p1" = false ∧
    ((Remediation.NewCircuitBreaker 5 600).Record 0 "Pod" "default" "p1").IsOnCooldown
        0 "Pod" "default" "p2" = false :=
  ⟨(c6_cooldown "Pod" "default" "p1" 600 0 5 (by decide)).1 0 (by decide),
   (c6_cooldown "Pod" "default" "p1" 600 0 5 (by decide)).2.1 600 (by decide),
   (c6_cooldown "Pod" "default" "p1" 600 0 5 (by decide)).2.2 "Pod" "default" "p2"
     (by decide) 0⟩

/-! ### C3: target validator injection resistance -/

namespace Protocol

theorem containerNameMatch_chars {v : String} (h : containerNameMatch v = true) :
    ∀ c ∈ v.toList, isNameRestChar c = true := by
  unfold containerNameMatch at h
  intro c hc
  cases hv : v.toList with
  | nil => rw [hv] at hc; cases hc
  | cons hd tl =>
    rw [hv] at h hc
    simp only [Bool.and_eq_true, List.all_eq_true] at h
    cases hc with
    | head => exact by unfold isNameRestChar; rw [h.1]; rfl
    | tail _ hmem => exact h.2 c hmem

theorem containerNameMatch_head {v : String} (h : containerNameMatch v = true) :
    ∀ hd tl, v.toList = hd :: tl → isAlnum hd = true := by
  intro hd tl hv
  unfold containerNameMatch at h
  rw [hv] at h
  simp only [Bool.and_eq_true] at h
  exact h.1

theorem checkField_isSome_of_badCommon {f v : String} (h : badCommon v = true) :
    (checkField f v).isSome = true := by
  have hvne : (v == "") = false := by
    rcases hv : (v == "") with _ | _
    · rfl
    · exfalso
      have hve : v = "" := by exact_mod_cast (beq_iff_eq.mp hv)
      subst hve
      exact absurd h (by decide)
  unfold checkField
  rw [hvne]
  simp only [Bool.false_eq_true, if_false]
  by_cases hlen : v.utf8ByteSize > 253
  · simp [hlen]
  · simp only [hlen, if_false]
    have hmatch : containerNameMatch v = false := by
      rcases hm : containerNameMatch v with _ | _
      · rfl
      exfalso
      unfold badCommon at h
      simp only [Bool.or_eq_true, decide_eq_true_eq] at h
      rcases h with (hbad | hdash) | hsz
      · unfold hasBadChar at hbad
        simp only [List.any_eq_true, Bool.or_eq_true] at hbad
        obtain ⟨c, hc, hcs⟩ := hbad
        have := containerNameMatch_chars hm c hc
        rcases hcs with ((h1 | h2) | h3) | h4 <;>
          [skip; skip; skip; skip] <;>
          first
          | (have hceq : c = ';' := by exact_mod_cast beq_iff_eq.mp h1
             subst hceq; simp [isNameRestChar, isAlnum, Char.isAlpha, Char.isDigit,
               Char.isUpper, Char.isLower] at this)
          | (have hceq : c = '|' := by exact_mod_cast beq_iff_eq.mp h2
             subst hceq; simp [isNameRestChar, isAlnum, Char.isAlpha, Char.isDigit,
               Char.isUpper, Char.isLower] at this)
          | (have hceq : c = '&' := by exact_mod_cast beq_iff_eq.mp h3
             subst hceq; simp [isNameRestChar, isAlnum, Char.isAlpha, Char.isDigit,
               Char.isUpper, Char.isLower] at this)
          | (have hceq : c = ' ' := by exact_mod_cast beq_iff_eq.mp h4
             subst hceq; simp [isNameRestChar, isAlnum, Char.isAlpha, Char.isDigit,
               Char.isUpper, Char.isLower] at this)
      · unfold leadingDash at hdash
        rcases hv2 : v.toList with _ | ⟨hd, tl⟩
        · rw [hv2] at hdash; cases hdash
        · rw [hv2] at hdash
          simp only [beq_iff_eq] at hdash
          subst hdash
          have := containerNameMatch_head hm '-' tl hv2
          simp [isAlnum, Char.isAlpha, Char.isDigit, Char.isUpper, Char.isLower] at this
      · exact hlen hsz
    rw [hmatch]
    rfl

theorem checkFields_isSome_of_mem (l : List (String × String)) (f v : String)
    (hmem : (f, v) ∈ l) (h : (checkField f v).isSome = true) :
    (checkFields l).isSome = true := by
  induction l with
  | nil => cases hmem
  | cons hd tl ih =>
    obtain ⟨f', v'⟩ := hd
    rw [checkFields]
    rcases hfv : checkField f' v' with _ | e
    · simp only
      cases hmem with
      | head => rw [hfv] at h; cases h
      | tail _ hmem' => exact ih hmem'
    · rfl

theorem allowedShells_not_bad {v : String} (h : allowedShells v = true) :
    badCommon v = false ∧ hasDotDot v = false := by
  unfold allowedShells at h
  simp only [Bool.or_eq_true, beq_iff_eq] at h
  rcases h with ((h | h) | h) | h <;> subst h <;> exact ⟨rfl, rfl⟩

theorem allowedRuntimes_not_bad {v : String} (h : allowedRuntimes v = true) :
    badCommon v = false ∧ hasDotDot v = false := by
  unfold allowedRuntimes at h
  simp only [Bool.or_eq_true, beq_iff_eq] at h
  rcases h with (h | h) | h <;> subst h <;> exact ⟨rfl, rfl⟩

end Protocol

/-- Claim C3 counterexample: the name regexp `^[a-zA-Z0-9][a-zA-Z0-9._-]*$`
accepts interior `..`, so a container name containing the substring `..`
passes `ValidateTerminalTarget` with no error. -/
theorem c3_validator_counterexample :
    ("a..b" = "a" ++ ".." ++ "b") ∧
    Protocol.hasDotDot "a..b" = true ∧
    Protocol.ValidateTerminalTarget (some
      { type := "docker", container := "a..b", pod := "", nspace := "",
        name := "", shell := "", runtime := "" }) = none :=
  ⟨rfl, rfl, rfl⟩

/-- Claim C3 (amended): in every field other than `type`, a value containing
`;`, `|`, `&`, or a space, beginning with `-`, or longer than 253 bytes
makes `ValidateTerminalTarget` return an error; a value containing `..`
does so in the `shell` and `runtime` fields (allowlist miss), but in the
four name fields `..` alone is not rejected (see the counterexample). -/
theorem c3_validator_amended (t : Protocol.TerminalTarget)
    (hbad : (Protocol.badCommon t.container || Protocol.badCommon t.pod
      || Protocol.badCommon t.nspace || Protocol.badCommon t.name
      || Protocol.badCommon t.shell || Protocol.hasDotDot t.shell
      || Protocol.badCommon t.runtime || Protocol.hasDotDot t.runtime) = true) :
    (Protocol.ValidateTerminalTarget (some t)).isSome = true := by
  rcases hty : Protocol.allowedTargetTypes t.type with _ | _
  · simp [Protocol.ValidateTerminalTarget, hty]
  · rcases hsh : Protocol.allowedShells t.shell with _ | _
    · simp [Protocol.ValidateTerminalTarget, hty, hsh]
    · rcases hrt : Protocol.allowedRuntimes t.runtime with _ | _
      · simp [Protocol.ValidateTerminalTarget, hty, hsh, hrt]
      · have hval : Protocol.ValidateTerminalTarget (some t) = Protocol.checkFields
            [("container", t.container), ("pod", t.pod),
             ("namespace", t.nspace), ("name", t.name)] := by
          simp [Protocol.ValidateTerminalTarget, hty, hsh, hrt]
        rw [hval]
        obtain ⟨hsh1, hsh2⟩ := Protocol.allowedShells_not_bad hsh
        obtain ⟨hrt1, hrt2⟩ := Protocol.allowedRuntimes_not_bad hrt
        rw [hsh1, hsh2, hrt1, hrt2] at hbad
        simp only [Bool.or_false, Bool.or_eq_true] at hbad
        rcases hbad with ((hc | hp) | hns) | hn
        · exact Protocol.checkFields_isSome_of_mem _ "container" _ (by simp)
            (Protocol.checkField_isSome_of_badCommon hc)
        · exact Protocol.checkFields_isSome_of_mem _ "pod" _ (by simp)
            (Protocol.checkField_isSome_of_badCommon hp)
        · exact Protocol.checkFields_isSome_of_mem _ "namespace" _ (by simp)
            (Protocol.checkField_isSome_of_badCommon hns)
        · exact Protocol.checkFields_isSome_of_mem _ "name" _ (by simp)
            (Protocol.checkField_isSome_of_badCommon hn)

/-- Witness for C3 at a concrete injection attempt. -/
theorem c3_validator_amended_witness :
    (Protocol.ValidateTerminalTarget (some
      { type := "docker", container := "x;curl evil.com", pod := "", nspace := "",
        name := "", shell := "", runtime := "" })).isSome = true :=
  c3_validator_amended _ (by decide)

/-! ### C8: scale parameter validation -/

/-- Claim C8 counterexample: a non-integer `replicas` value (`2.5`) is not
rejected — `int32(replicasFloat)` truncates it to `2`, which passes the
`>= 0` check, and the executor fetches and writes the scale. -/
theorem c8_scale_counterexample :
    (⌊(5 : ℚ) / 2⌋ ≠ ⌈(5 : ℚ) / 2⌉) ∧
    (Commands.Executor.scale (some 2) true
      { id := "cmd", action := "scale", targetKind := "Deployment",
        targetNamespace := "default", targetName := "web",
        parameters := [("replicas", .num (5 / 2))] }).1.success = true ∧
    (Commands.Executor.scale (some 2) true
      { id := "cmd", action := "scale", targetKind := "Deployment",
        targetNamespace := "default", targetName := "web",
        parameters := [("replicas", .num (5 / 2))] }).2 =
      [.getScale, .updateScale 2] := by
  have hfl : ⌊(5 : ℚ) / 2⌋ = 2 := by
    rw [Int.floor_eq_iff]
    norm_num
  have hcl : ⌈(5 : ℚ) / 2⌉ = 3 := by
    rw [Int.ceil_eq_iff]
    norm_num
  have htr : Commands.int32trunc (5 / 2) = 2 := by
    unfold Commands.int32trunc
    rw [if_pos (by norm_num)]
    exact hfl
  refine ⟨?_, ?_, ?_⟩
  · rw [hfl, hcl]; decide
  · simp [Commands.Executor.scale, List.lookup, htr]
  · simp [Commands.Executor.scale, List.lookup, htr]

/-- Claim C8 (amended): `scale` fails without touching the scale subresource
when `replicas` is missing, not a JSON number, or truncates (toward zero,
Go's `int32` conversion) to a negative value; for a JSON number whose
truncation is `>= 0` — including non-integers such as 2.5, which are
truncated rather than rejected — it fetches the current scale and, when the
fetch succeeds, writes the truncated value. -/
theorem c8_scale_amended (getScaleRes : Option Int) (updateOk : Bool)
    (cmd : Commands.Command) :
    (cmd.parameters.lookup "replicas" = none →
      (Commands.Executor.scale getScaleRes updateOk cmd).1.success = false ∧
      (Commands.Executor.scale getScaleRes updateOk cmd).2 = []) ∧
    (∀ v, cmd.parameters.lookup "replicas" = some v → (∀ x, v ≠ .num x) →
      (Commands.Executor.scale getScaleRes updateOk cmd).1.success = false ∧
      (Commands.Executor.scale getScaleRes updateOk cmd).2 = []) ∧
    (∀ x, cmd.parameters.lookup "replicas" = some (.num x) →
      Commands.int32trunc x < 0 →
      (Commands.Executor.scale getScaleRes updateOk cmd).1.success = false ∧
      (Commands.Executor.scale getScaleRes updateOk cmd).2 = []) ∧
    (∀ x, cmd.parameters.lookup "replicas" = some (.num x) →
      0 ≤ Commands.int32trunc x →
      (Commands.Executor.scale getScaleRes updateOk cmd).2.head? = some .getScale ∧
      (∀ old, getScaleRes = some old →
        (Commands.Executor.scale getScaleRes updateOk cmd).2 =
          [.getScale, .updateScale (Commands.int32trunc x)])) := by
  refine ⟨?_, ?_, ?_, ?_⟩
  · intro hnone
    simp [Commands.Executor.scale, hnone]
  · intro v hv hnum
    rcases v with s | x | b | _ | _
    · simp [Commands.Executor.scale, hv]
    · exact absurd rfl (hnum x)
    · simp [Commands.Executor.scale, hv]
    · simp [Commands.Executor.scale, hv]
    · simp [Commands.Executor.scale, hv]
  · intro x hx hneg
    simp [Commands.Executor.scale, hx, hneg]
  · intro x hx hnn
    have hlt : ¬ (Commands.int32trunc x < 0) := not_lt.mpr hnn
    rcases getScaleRes with _ | old
    · constructor
      · simp [Commands.Executor.scale, hx, hlt]
      · intro old hold; cases hold
    · constructor
      · rcases updateOk with _ | _ <;> simp [Commands.Executor.scale, hx, hlt]
      · intro old2 hold
        injection hold with hold
        subst hold
        rcases updateOk with _ | _ <;> simp [Commands.Executor.scale, hx, hlt]

/-- Witness for C8: missing parameter fails with no API calls; replicas 3
fetches then writes 3. -/
theorem c8_scale_amended_witness :
    ((Commands.Executor.scale (some 2) true
      { id := "c1", action := "scale", targetKind := "Deployment",
        targetNamespace := "default", targetName := "web",
        parameters := [] }).1.success = false ∧
     (Commands.Executor.scale (some 2) true
      { id := "c1", action := "scale", targetKind := "Deployment",
        targetNamespace := "default", targetName := "web",
        parameters := [] }).2 = []) ∧
    (Commands.Executor.scale (some 2) true
      { id := "c2", action := "scale", targetKind := "Deployment",
        targetNamespace := "default", targetName := "web",
        parameters := [("replicas", .num 3)] }).2 =
      [.getScale, .updateScale (Commands.int32trunc 3)] :=
  ⟨(c8_scale_amended (some 2) true
      { id := "c1", action := "scale", targetKind := "Deployment",
        targetNamespace := "default", targetName := "web",
        parameters := [] }).1 rfl,
   ((c8_scale_amended (some 2) true
      { id := "c2", action := "scale", targetKind := "Deployment",
        targetNamespace := "default", targetName := "web",
        parameters := [("replicas", .num 3)] }).2.2.2 3 (by simp [List.lookup])
      (by unfold Commands.int32trunc
          rw [if_pos (by norm_num)]
          norm_num)).2 2 rfl⟩

/-! ### C9: incremental insight reporting -/

namespace Insights

theorem joinComma_length :
    ∀ l : List String, l ≠ [] →
      (joinComma l).length = ((l.map String.length).sum + l.length) - 1
  | [], h => absurd rfl h
  | [x], _ => by simp [joinComma]
  | x :: y :: t, _ => by
    have ih := joinComma_length (y :: t) (by simp)
    have hcomma : (",").length = 1 := rfl
    rw [joinComma]
    · simp only [String.length_append, List.map_cons, List.sum_cons, List.length_cons,
        hcomma] at ih ⊢
      omega
    · simp

theorem sortStrings_perm (l : List String) : List.Perm (sortStrings l) l :=
  List.perm_insertionSort _ l

theorem joinComma_ne_of_added {l2 l3 : List String} {f : String}
    (hne2 : l2 ≠ []) (hperm : List.Perm l3 (f :: l2)) :
    joinComma (sortStrings l3) ≠ joinComma (sortStrings l2) := by
  have hP3 : List.Perm (sortStrings l3) (f :: l2) := (sortStrings_perm l3).trans hperm
  have hP2 : List.Perm (sortStrings l2) l2 := sortStrings_perm l2
  have hne3' : sortStrings l3 ≠ [] := by
    intro h0
    have := hP3.length_eq
    rw [h0] at this
    simp at this
  have hne2' : sortStrings l2 ≠ [] := by
    intro h0
    have := hP2.length_eq
    rw [h0] at this
    exact hne2 (List.length_eq_zero.mp this.symm)
  have h3 := joinComma_length (sortStrings l3) hne3'
  have h2 := joinComma_length (sortStrings l2) hne2'
  rw [(hP3.map String.length).sum_eq, hP3.length_eq] at h3
  rw [(hP2.map String.length).sum_eq, hP2.length_eq] at h2
  intro heq
  have hlen := congrArg String.length heq
  rw [h3, h2] at hlen
  simp only [List.map_cons, List.sum_cons, List.length_cons] at hlen
  have hl2 : 1 ≤ l2.length := by
    cases l2 with
    | nil => exact absurd rfl hne2
    | cons a t => simp
  omega

end Insights

/-- Claim C9: `Report` skips the upload (performed = false and zero HTTP
requests) exactly when the sorted comma-joined fingerprint key equals the
stored key from the last successful sync; a failed sync leaves the stored
key unchanged; two consecutive sweeps with identical fingerprint keys issue
exactly one HTTP request; and a sweep whose fingerprint multiset adds one
fingerprint to a nonempty previous sweep issues a request. -/
theorem c9_reporter_incremental :
    (∀ (r : Insights.Reporter) (ins : List Insights.ClusterInsight) (httpOK : Bool),
      ((r.Report ins httpOK).1 = false ∧ (r.Report ins httpOK).2.2 = 0) ↔
        Insights.joinComma (Insights.ActiveFingerprints ins) = r.lastFingerprints) ∧
    (∀ (r : Insights.Reporter) (ins : List Insights.ClusterInsight),
      (r.Report ins false).2.1 = r) ∧
    (∀ (r : Insights.Reporter) (ins1 ins2 : List Insights.ClusterInsight) (ok2 : Bool),
      Insights.joinComma (Insights.ActiveFingerprints ins1) ≠ r.lastFingerprints →
      Insights.joinComma (Insights.ActiveFingerprints ins2) =
        Insights.joinComma (Insights.ActiveFingerprints ins1) →
      (r.Report ins1 true).2.2 + ((r.Report ins1 true).2.1.Report ins2 ok2).2.2 = 1) ∧
    (∀ (r : Insights.Reporter) (ins2 ins3 : List Insights.ClusterInsight)
       (f : String) (ok : Bool),
      r.lastFingerprints = Insights.joinComma (Insights.ActiveFingerprints ins2) →
      ins2 ≠ [] →
      List.Perm (ins3.map (fun i => i.fingerprint)) (f :: ins2.map (fun i => i.fingerprint)) →
      (r.Report ins3 ok).2.2 = 1) := by
  refine ⟨?_, ?_, ?_, ?_⟩
  · intro r ins httpOK
    by_cases hk : Insights.joinComma (Insights.ActiveFingerprints ins) = r.lastFingerprints
    · simp [Insights.Reporter.Report, hk]
    · have hbeq : (Insights.joinComma (Insights.ActiveFingerprints ins) ==
          r.lastFingerprints) = false := beq_eq_false_iff_ne.mpr hk
      rcases httpOK with _ | _ <;> simp [Insights.Reporter.Report, hbeq, hk]
  · intro r ins
    by_cases hk : Insights.joinComma (Insights.ActiveFingerprints ins) = r.lastFingerprints
    · simp [Insights.Reporter.Report, hk]
    · have hbeq : (Insights.joinComma (Insights.ActiveFingerprints ins) ==
          r.lastFingerprints) = false := beq_eq_false_iff_ne.mpr hk
      simp [Insights.Reporter.Report, hbeq]
  · intro r ins1 ins2 ok2 hfirst hsame
    have hbeq1 : (Insights.joinComma (Insights.ActiveFingerprints ins1) ==
        r.lastFingerprints) = false := beq_eq_false_iff_ne.mpr hfirst
    have hstep1 : r.Report ins1 true =
        (true, { lastFingerprints := Insights.joinComma (Insights.ActiveFingerprints ins1) },
          1) := by
      simp [Insights.Reporter.Report, hbeq1]
    rw [hstep1]
    simp [Insights.Reporter.Report, hsame]
  · intro r ins2 ins3 f ok hlast hne2 hperm
    have hkey : Insights.joinComma (Insights.ActiveFingerprints ins3) ≠
        r.lastFingerprints := by
      rw [hlast]
      exact Insights.joinComma_ne_of_added (by simpa using hne2) hperm
    have hbeq : (Insights.joinComma (Insights.ActiveFingerprints ins3) ==
        r.lastFingerprints) = false := beq_eq_false_iff_ne.mpr hkey
    rcases ok with _ | _ <;> simp [Insights.Reporter.Report, hbeq]

/-- Witness for C9: concrete two identical sweeps then a third adding a
fingerprint. -/
theorem c9_reporter_incremental_witness :
    (let i1 : Insights.ClusterInsight :=
      { analyzer := "stale_pods", category := "hygiene", severity := "suggestion",
        title := "", description := "", targetKind := "Pod", targetNS := "default",
        targetName := "p1", fingerprint := "aaaa", proposedAction := "",
        proposedParams := [], autoRemediable := false }
     ({ lastFingerprints := "" } : Insights.Reporter).Report [i1] true |>.2.2) +
    ((let i1 : Insights.ClusterInsight :=
      { analyzer := "stale_pods", category := "hygiene", severity := "suggestion",
        title := "", description := "", targetKind := "Pod", targetNS := "default",
        targetName := "p1", fingerprint := "aaaa", proposedAction := "",
        proposedParams := [], autoRemediable := false }
     (({ lastFingerprints := "" } : Insights.Reporter).Report [i1] true).2.1.Report
        [i1] true).2.2) = 1 := by
  exact c9_reporter_incremental.2.2.1 { lastFingerprints := "" } _ _ true
    (by decide) rfl

/-! ### C4: audit chain continuity -/

namespace Audit

theorem lastHash_cons (prev : String) (a : AuditEntry) (t : List AuditEntry) :
    lastHash prev (a :: t) = lastHash a.entryHash t := by
  cases t with
  | nil => rfl
  | cons b t2 =>
    rcases h : (b :: t2).getLast? with _ | x
    · simp at h
    · simp [lastHash, List.getLast?_cons_cons, h]

theorem lastHash_snoc (prev : String) (l : List AuditEntry) (e : AuditEntry) :
    lastHash prev (l ++ [e]) = e.entryHash := by
  simp [lastHash, List.getLast?_concat]

theorem chainOK_snoc (hash : String → String) :
    ∀ (l : List AuditEntry) (prev : String) (e : AuditEntry),
      chainOK hash prev (l ++ [e]) =
        (chainOK hash prev l &&
          (e.entryHash == hash (lastHash prev l ++ serializeAuditEntry
            { e with entryHash := "" })))
  | [], prev, e => by simp [chainOK, lastHash]
  | a :: t, prev, e => by
    rw [List.cons_append, chainOK, chainOK, chainOK_snoc hash t a.entryHash e,
      lastHash_cons, Bool.and_assoc]

theorem logMany_chain (hash : String → String) (init : String) :
    ∀ (calls : List (Int × AuditEntry)) (st : LoggerState),
      chainOK hash init st.entries = true →
      st.prevHash = lastHash init st.entries →
      chainOK hash init ((st.logMany hash calls).entries) = true ∧
      (st.logMany hash calls).prevHash = lastHash init ((st.logMany hash calls).entries)
  | [], st, h1, h2 => ⟨h1, h2⟩
  | (now, e) :: rest, st, h1, h2 => by
    rw [LoggerState.logMany]
    apply logMany_chain hash init rest
    · rw [LoggerState.log]
      simp only
      rw [chainOK_snoc, h1, Bool.true_and, ← h2]
      exact beq_self_eq_true _
    · rw [LoggerState.log]
      simp only
      rw [lastHash_snoc]

end Audit

/-- Claim C4: after any finite sequence of `Log` calls starting from an
empty log file, re-reading the lines and recomputing each hash from the
previous stored hash and the line with `entry_hash` blanked reproduces
every stored `entry_hash`. -/
theorem c4_audit_chain_continuity (hash : String → String)
    (calls : List (Int × Audit.AuditEntry)) :
    Audit.chainOK hash "" ((Audit.freshLogger.logMany hash calls).entries) = true :=
  (Audit.logMany_chain hash "" calls Audit.freshLogger rfl rfl).1

/-! ### Signing: nonce-store and verifier lemmas -/

namespace Signing

theorem lookup_isSome_of_mem :
    ∀ {l : List (String × Int)} {n : String} {t : Int},
      (n, t) ∈ l → (l.lookup n).isSome = true
  | [], _, _, h => absurd h (List.not_mem_nil _)
  | (k, v) :: tl, n, t, h => by
    by_cases hnk : n = k
    · subst hnk
      simp [List.lookup]
    · have hk : (n == k) = false := beq_eq_false_iff_ne.mpr hnk
      simp only [List.lookup, hk]
      cases h with
      | head => exact absurd rfl hnk
      | tail _ h2 => exact lookup_isSome_of_mem h2

theorem lookup_eq_none_of_not_mem :
    ∀ {l : List (String × Int)} {n : String},
      (∀ t, (n, t) ∉ l) → l.lookup n = none
  | [], _, _ => rfl
  | (k, v) :: tl, n, h => by
    by_cases hnk : n = k
    · subst hnk
      exact absurd (List.mem_cons_self _ _) (h v)
    · have hk : (n == k) = false := beq_eq_false_iff_ne.mpr hnk
      simp only [List.lookup, hk]
      exact lookup_eq_none_of_not_mem (fun t ht => h t (List.mem_cons_of_mem _ ht))

theorem NonceStore.gc_ttl (ns : NonceStore) (now : Int) : (ns.gc now).ttl = ns.ttl := by
  unfold NonceStore.gc
  split <;> rfl

theorem NonceStore.gc_mem {ns : NonceStore} {m : String} {t : Int} (now : Int)
    (h : (m, t) ∈ ns.nonces) (hin : now - t ≤ ns.ttl) : (m, t) ∈ (ns.gc now).nonces := by
  unfold NonceStore.gc
  split
  · exact List.mem_filter.mpr ⟨h, by simp; omega⟩
  · exact h

theorem NonceStore.gc_not_mem {ns : NonceStore} {n : String} (now : Int)
    (h : ∀ t, (n, t) ∉ ns.nonces) : ∀ t, (n, t) ∉ (ns.gc now).nonces := by
  intro t ht
  unfold NonceStore.gc at ht
  revert ht
  split
  · intro ht
    exact h t (List.mem_filter.mp ht).1
  · intro ht
    exact h t ht

theorem NonceStore.Add_ttl (ns : NonceStore) (n : String) (now : Int) :
    ((ns.Add n now).2).ttl = ns.ttl := by
  unfold NonceStore.Add
  rcases hlk : (ns.gc now).nonces.lookup n with _ | v <;>
    simp [hlk, NonceStore.gc_ttl]

theorem NonceStore.Add_false_of_mem {ns : NonceStore} {n : String} {t now : Int}
    (h : (n, t) ∈ ns.nonces) (hin : now - t ≤ ns.ttl) : (ns.Add n now).1 = false := by
  have hmem := NonceStore.gc_mem now h hin
  have hsome := lookup_isSome_of_mem hmem
  unfold NonceStore.Add
  rcases hlk : (ns.gc now).nonces.lookup n with _ | v
  · rw [hlk] at hsome
    cases hsome
  · simp [hlk]

theorem NonceStore.Add_true_of_not_mem {ns : NonceStore} {n : String} (now : Int)
    (h : ∀ t, (n, t) ∉ ns.nonces) :
    (ns.Add n now).1 = true ∧ (n, now) ∈ ((ns.Add n now).2).nonces := by
  have hnone := lookup_eq_none_of_not_mem (NonceStore.gc_not_mem now h)
  unfold NonceStore.Add
  rw [hnone]
  exact ⟨rfl, List.mem_cons_self _ _⟩

theorem NonceStore.Add_mem_of_true {ns ns' : NonceStore} {n : String} {now : Int}
    (hAdd : ns.Add n now = (true, ns')) : (n, now) ∈ ns'.nonces := by
  unfold NonceStore.Add at hAdd
  rcases hlk : (ns.gc now).nonces.lookup n with _ | v
  · rw [hlk] at hAdd
    simp only [Prod.mk.injEq] at hAdd
    rw [← hAdd.2]
    exact List.mem_cons_self _ _
  · rw [hlk] at hAdd
    simp at hAdd

theorem NonceStore.Add_preserves_mem {ns : NonceStore} {m n : String} {t now : Int}
    (h : (m, t) ∈ ns.nonces) (hin : now - t ≤ ns.ttl) :
    (m, t) ∈ ((ns.Add n now).2).nonces := by
  have hg := NonceStore.gc_mem now h hin
  unfold NonceStore.Add
  rcases hlk : (ns.gc now).nonces.lookup n with _ | v
  · simp only [hlk]
    exact List.mem_cons_of_mem _ hg
  · simp only [hlk]
    exact hg

theorem Verify_store_cases (d : String → Option String) (e : String → String → Bool)
    (now : Int) (j : Json) (st : NonceStore) :
    (Verifier.Verify d e now (some j) st).2.2 = st ∨
    ∃ env, parseEnvelope j = some env ∧
      (Verifier.Verify d e now (some j) st).2.2 = (st.Add env.nonce now).2 := by
  rcases hp : parseEnvelope j with _ | env
  · left
    simp [Verifier.Verify, hp]
  by_cases h1 : (env.signature == "") = true
  · left
    simp [Verifier.Verify, hp, h1]
  by_cases h2 : (env.nonce == "") = true
  · left
    simp [Verifier.Verify, hp, h1, h2]
  by_cases h3 : ageOf now env.timestamp > MaxTimestampAge
  · left
    simp [Verifier.Verify, hp, h1, h2, h3]
  right
  refine ⟨env, rfl, ?_⟩
  rcases hAdd : st.Add env.nonce now with ⟨b, store'⟩
  rcases b with _ | _
  · simp [Verifier.Verify, hp, h1, h2, h3, hAdd]
  · rcases hds : d env.signature with _ | sig
    · simp [Verifier.Verify, hp, h1, h2, h3, hAdd, hds]
    · by_cases hev : e (canonicalOf (stripSigningFields j) env.timestamp env.nonce
          env.userID env.origin) sig = true <;>
        simp [Verifier.Verify, hp, h1, h2, h3, hAdd, hds, hev]

theorem Verify_ttl (d : String → Option String) (e : String → String → Bool)
    (now : Int) (raw : Option Json) (st : NonceStore) :
    ((Verifier.Verify d e now raw st).2.2).ttl = st.ttl := by
  rcases raw with _ | j
  · rfl
  rcases Verify_store_cases d e now j st with h | ⟨env, _, h⟩
  · rw [h]
  · rw [h]
    exact NonceStore.Add_ttl st env.nonce now

theorem Verify_preserves_mem (d : String → Option String) (e : String → String → Bool)
    (now : Int) (raw : Option Json) (st : NonceStore) {m : String} {t : Int}
    (h : (m, t) ∈ st.nonces) (hin : now - t ≤ st.ttl) :
    (m, t) ∈ ((Verifier.Verify d e now raw st).2.2).nonces := by
  rcases raw with _ | j
  · exact h
  rcases Verify_store_cases d e now j st with heq | ⟨env, _, heq⟩
  · rw [heq]
    exact h
  · rw [heq]
    exact NonceStore.Add_preserves_mem h hin

theorem verifyMany_preserves (d : String → Option String) (e : String → String → Bool)
    (T : Int) :
    ∀ (calls : List (Int × Option Json)) (st : NonceStore) {m : String} {t : Int},
      (m, t) ∈ st.nonces → st.ttl = T → (∀ c ∈ calls, c.1 - t ≤ T) →
      (m, t) ∈ (verifyMany d e calls st).nonces ∧ (verifyMany d e calls st).ttl = T
  | [], st, m, t, hmem, httl, _ => ⟨hmem, httl⟩
  | (now, raw) :: rest, st, m, t, hmem, httl, hcalls => by
    rw [verifyMany]
    apply verifyMany_preserves d e T rest
    · apply Verify_preserves_mem d e now raw st hmem
      rw [httl]
      exact hcalls (now, raw) (List.mem_cons_self _ _)
    · rw [Verify_ttl]
      exact httl
    · intro c hc
      exact hcalls c (List.mem_cons_of_mem _ hc)

theorem Verify_valid_nonce_mem (d : String → Option String) (e : String → String → Bool)
    (now : Int) (j : Json) (st : NonceStore) (env : SignedEnvelope)
    (hp : parseEnvelope j = some env)
    (hvalid : (Verifier.Verify d e now (some j) st).2.1.valid = true) :
    (env.nonce == "") = false ∧
    (env.nonce, now) ∈ ((Verifier.Verify d e now (some j) st).2.2).nonces := by
  by_cases h1 : (env.signature == "") = true
  · simp [Verifier.Verify, hp, h1] at hvalid
  by_cases h2 : (env.nonce == "") = true
  · simp [Verifier.Verify, hp, h1, h2] at hvalid
  by_cases h3 : ageOf now env.timestamp > MaxTimestampAge
  · simp [Verifier.Verify, hp, h1, h2, h3] at hvalid
  refine ⟨Bool.not_eq_true _ ▸ h2, ?_⟩
  rcases hAdd : st.Add env.nonce now with ⟨b, store'⟩
  rcases b with _ | _
  · simp [Verifier.Verify, hp, h1, h2, h3, hAdd] at hvalid
  · have hmem := NonceStore.Add_mem_of_true hAdd
    rcases hds : d env.signature with _ | sig
    · simp [Verifier.Verify, hp, h1, h2, h3, hAdd, hds] at hvalid
    · by_cases hev : e (canonicalOf (stripSigningFields j) env.timestamp env.nonce
          env.userID env.origin) sig = true
      · simp [Verifier.Verify, hp, h1, h2, h3, hAdd, hds, hev]
        exact hmem
      · simp [Verifier.Verify, hp, h1, h2, h3, hAdd, hds, hev] at hvalid

theorem Verify_dup (d : String → Option String) (e : String → String → Bool)
    (now : Int) (j : Json) (st : NonceStore) (env : SignedEnvelope)
    (hp : parseEnvelope j = some env)
    (h1 : (env.signature == "") = false)
    (h2 : (env.nonce == "") = false)
    (h3 : ¬ (ageOf now env.timestamp > MaxTimestampAge))
    (hdup : (st.Add env.nonce now).1 = false) :
    Verifier.Verify d e now (some j) st =
      (none, { valid := false, reason := "duplicate nonce (replay detected)",
               userID := env.userID, origin := env.origin, timestamp := env.timestamp },
        (st.Add env.nonce now).2) := by
  rcases hAdd : st.Add env.nonce now with ⟨b, store'⟩
  rw [hAdd] at hdup
  simp only at hdup
  subst hdup
  simp [Verifier.Verify, hp, h1, h2, h3, hAdd]

theorem Verify_reject_of_mem (d : String → Option String) (e : String → String → Bool)
    (now : Int) (j : Json) (st : NonceStore) (env : SignedEnvelope)
    (hp : parseEnvelope j = some env)
    (hnonce : ∃ t, (env.nonce, t) ∈ st.nonces ∧ now - t ≤ st.ttl) :
    (Verifier.Verify d e now (some j) st).1 = none ∧
    (Verifier.Verify d e now (some j) st).2.1.valid = false := by
  obtain ⟨t, hmem, hin⟩ := hnonce
  by_cases h1 : (env.signature == "") = true
  · simp [Verifier.Verify, hp, h1]
  by_cases h2 : (env.nonce == "") = true
  · simp [Verifier.Verify, hp, h1, h2]
  by_cases h3 : ageOf now env.timestamp > MaxTimestampAge
  · simp [Verifier.Verify, hp, h1, h2, h3]
  have hdup := NonceStore.Add_false_of_mem hmem hin
  have := Verify_dup d e now j st env hp (Bool.not_eq_true _ ▸ h1)
    (Bool.not_eq_true _ ▸ h2) h3 hdup
  rw [this]
  exact ⟨rfl, rfl⟩

end Signing

/-! ### C1: replay rejection -/

/-- Claim C1 counterexample: after a successful verify of nonce `n1`, a
message reusing `n1` one second later but lacking a signature is rejected
with reason "missing signature", not "duplicate nonce (replay detected)",
so the claim's required reason does not hold for every reusing message. -/
theorem c1_replay_counterexample :
    ((Signing.Verifier.Verify (fun _ => some "") (fun _ _ => true) 5
      (some (Signing.Json.obj [("signature", Signing.Json.str "sg"),
        ("nonce", Signing.Json.str "n1"), ("timestamp", Signing.Json.num 5)]))
      { nonces := [], ttl := 60, lastGC := 0 }).2.1.valid = true) ∧
    (Signing.parseEnvelope (Signing.Json.obj [("nonce", Signing.Json.str "n1"),
        ("timestamp", Signing.Json.num 6)]) =
      some { signature := "", timestamp := 6, nonce := "n1", userID := "", origin := "" }) ∧
    ((Signing.Verifier.Verify (fun _ => some "") (fun _ _ => true) 6
      (some (Signing.Json.obj [("nonce", Signing.Json.str "n1"),
        ("timestamp", Signing.Json.num 6)]))
      (Signing.Verifier.Verify (fun _ => some "") (fun _ _ => true) 5
        (some (Signing.Json.obj [("signature", Signing.Json.str "sg"),
          ("nonce", Signing.Json.str "n1"), ("timestamp", Signing.Json.num 5)]))
        { nonces := [], ttl := 60, lastGC := 0 }).2.2).2.1.valid = false) ∧
    ((Signing.Verifier.Verify (fun _ => some "") (fun _ _ => true) 6
      (some (Signing.Json.obj [("nonce", Signing.Json.str "n1"),
        ("timestamp", Signing.Json.num 6)]))
      (Signing.Verifier.Verify (fun _ => some "") (fun _ _ => true) 5
        (some (Signing.Json.obj [("signature", Signing.Json.str "sg"),
          ("nonce", Signing.Json.str "n1"), ("timestamp", Signing.Json.num 5)]))
        { nonces := [], ttl := 60, lastGC := 0 }).2.2).2.1.reason = "missing signature") ∧
    ("missing signature" ≠ "duplicate nonce (replay detected)") := by
  refine ⟨?_, ?_, ?_, ?_, ?_⟩ <;> decide

/-- Claim C1 (amended): after a Verify accepted with nonce `n` at `now1`,
every subsequent Verify call — possibly after further Verify calls, all
within the 60 s nonce TTL of the acceptance — on a message reusing `n`
within the TTL returns no command and valid = false; when the reusing
message moreover carries a non-empty signature and a timestamp within the
freshness window, the reason is exactly "duplicate nonce (replay
detected)" (a reusing message that fails an earlier check is still
rejected, but with that check's reason). -/
theorem c1_replay_rejection (d : String → Option String) (e : String → String → Bool)
    (st0 : Signing.NonceStore) (httl : st0.ttl = 60)
    (j1 : Signing.Json) (now1 : Int) (env1 : Signing.SignedEnvelope)
    (hp1 : Signing.parseEnvelope j1 = some env1)
    (hvalid : (Signing.Verifier.Verify d e now1 (some j1) st0).2.1.valid = true)
    (calls : List (Int × Option Signing.Json)) (hcalls : ∀ c ∈ calls, c.1 - now1 ≤ 60)
    (j2 : Signing.Json) (env2 : Signing.SignedEnvelope)
    (hp2 : Signing.parseEnvelope j2 = some env2) (hreuse : env2.nonce = env1.nonce)
    (now2 : Int) (hwithin : now2 - now1 ≤ 60) :
    (Signing.Verifier.Verify d e now2 (some j2)
        (Signing.verifyMany d e calls
          (Signing.Verifier.Verify d e now1 (some j1) st0).2.2)).1 = none ∧
    (Signing.Verifier.Verify d e now2 (some j2)
        (Signing.verifyMany d e calls
          (Signing.Verifier.Verify d e now1 (some j1) st0).2.2)).2.1.valid = false ∧
    ((env2.signature == "") = false →
      ¬ (Signing.ageOf now2 env2.timestamp > Signing.MaxTimestampAge) →
      (Signing.Verifier.Verify d e now2 (some j2)
        (Signing.verifyMany d e calls
          (Signing.Verifier.Verify d e now1 (some j1) st0).2.2)).2.1.reason =
        "duplicate nonce (replay detected)") := by
  obtain ⟨hn1ne, hmem1⟩ := Signing.Verify_valid_nonce_mem d e now1 j1 st0 env1 hp1 hvalid
  have httl1 : ((Signing.Verifier.Verify d e now1 (some j1) st0).2.2).ttl = 60 := by
    rw [Signing.Verify_ttl]
    exact httl
  obtain ⟨hmem2, httl2⟩ :=
    Signing.verifyMany_preserves d e 60 calls _ hmem1 httl1 hcalls
  have hmem2' : (env2.nonce, now1) ∈ (Signing.verifyMany d e calls
      (Signing.Verifier.Verify d e now1 (some j1) st0).2.2).nonces := by
    rw [hreuse]
    exact hmem2
  have hex : ∃ t, (env2.nonce, t) ∈ (Signing.verifyMany d e calls
      (Signing.Verifier.Verify d e now1 (some j1) st0).2.2).nonces ∧
      now2 - t ≤ (Signing.verifyMany d e calls
        (Signing.Verifier.Verify d e now1 (some j1) st0).2.2).ttl := by
    refine ⟨now1, hmem2', ?_⟩
    rw [httl2]
    exact hwithin
  obtain ⟨hc1, hc2⟩ := Signing.Verify_reject_of_mem d e now2 j2 _ env2 hp2 hex
  refine ⟨hc1, hc2, ?_⟩
  intro hsig2 hage2
  have hn2 : (env2.nonce == "") = false := by
    rw [hreuse]
    exact hn1ne
  have hdup : ((Signing.verifyMany d e calls
      (Signing.Verifier.Verify d e now1 (some j1) st0).2.2).Add env2.nonce now2).1
        = false := by
    apply Signing.NonceStore.Add_false_of_mem hmem2'
    rw [httl2]
    exact hwithin
  rw [Signing.Verify_dup d e now2 j2 _ env2 hp2 hsig2 hn2 hage2 hdup]

/-- Witness for C1: a concrete well-formed replay one second later is
rejected with exactly the duplicate-nonce reason. -/
theorem c1_replay_rejection_witness :
    (Signing.Verifier.Verify (fun _ => some "") (fun _ _ => true) 6
      (some (Signing.Json.obj [("signature", Signing.Json.str "sg2"),
        ("nonce", Signing.Json.str "n1"), ("timestamp", Signing.Json.num 6)]))
      (Signing.verifyMany (fun _ => some "") (fun _ _ => true) []
        (Signing.Verifier.Verify (fun _ => some "") (fun _ _ => true) 5
          (some (Signing.Json.obj [("signature", Signing.Json.str "sg"),
            ("nonce", Signing.Json.str "n1"), ("timestamp", Signing.Json.num 5)]))
          { nonces := [], ttl := 60, lastGC := 0 }).2.2)).2.1.reason =
      "duplicate nonce (replay detected)" :=
  (c1_replay_rejection (fun _ => some "") (fun _ _ => true)
    { nonces := [], ttl := 60, lastGC := 0 } rfl
    (Signing.Json.obj [("signature", Signing.Json.str "sg"),
      ("nonce", Signing.Json.str "n1"), ("timestamp", Signing.Json.num 5)]) 5
    { signature := "sg", timestamp := 5, nonce := "n1", userID := "", origin := "" }
    (by decide) (by decide) [] (by decide)
    (Signing.Json.obj [("signature", Signing.Json.str "sg2"),
      ("nonce", Signing.Json.str "n1"), ("timestamp", Signing.Json.num 6)])
    { signature := "sg2", timestamp := 6, nonce := "n1", userID := "", origin := "" }
    (by decide) rfl 6 (by decide)).2.2 (by decide) (by decide)

/-! ### C10: nonce burned on failed signature -/

/-- Claim C10: a message with a fresh nonce and fresh timestamp whose
signature is undecodable or invalid is rejected, yet its nonce is recorded
in the store; a later well-formed message reusing that nonce within the TTL
is rejected with reason "duplicate nonce (replay detected)", valid = false
and no command — even if its own signature is valid. -/
theorem c10_nonce_burned_on_invalid_signature
    (d : String → Option String) (e : String → String → Bool)
    (st0 : Signing.NonceStore) (httl : st0.ttl = 60)
    (j1 : Signing.Json) (now1 : Int) (env1 : Signing.SignedEnvelope)
    (hp1 : Signing.parseEnvelope j1 = some env1)
    (hsig1 : (env1.signature == "") = false)
    (hn1 : (env1.nonce == "") = false)
    (hfresh1 : ¬ (Signing.ageOf now1 env1.timestamp > Signing.MaxTimestampAge))
    (hnew : ∀ t, (env1.nonce, t) ∉ st0.nonces)
    (hbad : d env1.signature = none ∨ ∀ sig, d env1.signature = some sig →
      e (Signing.canonicalOf (Signing.stripSigningFields j1) env1.timestamp env1.nonce
        env1.userID env1.origin) sig = false)
    (j2 : Signing.Json) (env2 : Signing.SignedEnvelope) (now2 : Int)
    (hp2 : Signing.parseEnvelope j2 = some env2) (hreuse : env2.nonce = env1.nonce)
    (hsig2 : (env2.signature == "") = false)
    (hfresh2 : ¬ (Signing.ageOf now2 env2.timestamp > Signing.MaxTimestampAge))
    (hwithin : now2 - now1 ≤ 60) :
    (Signing.Verifier.Verify d e now1 (some j1) st0).2.1.valid = false ∧
    (env1.nonce, now1) ∈ ((Signing.Verifier.Verify d e now1 (some j1) st0).2.2).nonces ∧
    (Signing.Verifier.Verify d e now2 (some j2)
      (Signing.Verifier.Verify d e now1 (some j1) st0).2.2).1 = none ∧
    (Signing.Verifier.Verify d e now2 (some j2)
      (Signing.Verifier.Verify d e now1 (some j1) st0).2.2).2.1.valid = false ∧
    (Signing.Verifier.Verify d e now2 (some j2)
      (Signing.Verifier.Verify d e now1 (some j1) st0).2.2).2.1.reason =
      "duplicate nonce (replay detected)" := by
  rcases hA : st0.Add env1.nonce now1 with ⟨b, store'⟩
  obtain ⟨hAt, hAm⟩ := Signing.NonceStore.Add_true_of_not_mem now1 hnew
  rw [hA] at hAt hAm
  simp only at hAt hAm
  subst hAt
  have hr1 : (Signing.Verifier.Verify d e now1 (some j1) st0).2.1.valid = false ∧
      (Signing.Verifier.Verify d e now1 (some j1) st0).2.2 = store' := by
    rcases hds : d env1.signature with _ | sig
    · constructor <;>
        simp [Signing.Verifier.Verify, hp1, hsig1, hn1, hfresh1, hA, hds]
    · have hev : e (Signing.canonicalOf (Signing.stripSigningFields j1) env1.timestamp
          env1.nonce env1.userID env1.origin) sig = false := by
        rcases hbad with hnone | hinv
        · rw [hds] at hnone
          cases hnone
        · exact hinv sig hds
      constructor <;>
        simp [Signing.Verifier.Verify, hp1, hsig1, hn1, hfresh1, hA, hds, hev]
  have hstore : (Signing.Verifier.Verify d e now1 (some j1) st0).2.2 = store' := hr1.2
  have httl' : store'.ttl = 60 := by
    have := Signing.NonceStore.Add_ttl st0 env1.nonce now1
    rw [hA] at this
    simp only at this
    rw [this]
    exact httl
  have hmem2 : (env2.nonce, now1) ∈ store'.nonces := by
    rw [hreuse]
    exact hAm
  have hn2 : (env2.nonce == "") = false := by
    rw [hreuse]
    exact hn1
  have hdup : (store'.Add env2.nonce now2).1 = false := by
    apply Signing.NonceStore.Add_false_of_mem hmem2
    rw [httl']
    exact hwithin
  have hr2 := Signing.Verify_dup d e now2 j2 store' env2 hp2 hsig2 hn2 hfresh2 hdup
  refine ⟨hr1.1, ?_, ?_, ?_, ?_⟩
  · rw [hstore]
    exact hAm
  · rw [hstore, hr2]
  · rw [hstore, hr2]
  · rw [hstore, hr2]

/-- Witness for C10: a concrete message whose signature check fails still
burns its nonce; the follow-up reusing it gets the duplicate-nonce
rejection. -/
theorem c10_nonce_burned_witness :
    (Signing.Verifier.Verify (fun _ => some "") (fun _ _ => false) 5
      (some (Signing.Json.obj [("signature", Signing.Json.str "sg"),
        ("nonce", Signing.Json.str "n1"), ("timestamp", Signing.Json.num 5)]))
      { nonces := [], ttl := 60, lastGC := 0 }).2.1.valid = false ∧
    (Signing.Verifier.Verify (fun _ => some "") (fun _ _ => false) 6
      (some (Signing.Json.obj [("signature", Signing.Json.str "sg2"),
        ("nonce", Signing.Json.str "n1"), ("timestamp", Signing.Json.num 6)]))
      (Signing.Verifier.Verify (fun _ => some "") (fun _ _ => false) 5
        (some (Signing.Json.obj [("signature", Signing.Json.str "sg"),
          ("nonce", Signing.Json.str "n1"), ("timestamp", Signing.Json.num 5)]))
        { nonces := [], ttl := 60, lastGC := 0 }).2.2).2.1.reason =
      "duplicate nonce (replay detected)" :=
  ⟨(c10_nonce_burned_on_invalid_signature (fun _ => some "") (fun _ _ => false)
      { nonces := [], ttl := 60, lastGC := 0 } rfl
      (Signing.Json.obj [("signature", Signing.Json.str "sg"),
        ("nonce", Signing.Json.str "n1"), ("timestamp", Signing.Json.num 5)]) 5
      { signature := "sg", timestamp := 5, nonce := "n1", userID := "", origin := "" }
      (by decide) (by decide) (by decide) (by decide) (by intro t h; simp at h)
      (Or.inr (fun _ _ => rfl))
      (Signing.Json.obj [("signature", Signing.Json.str "sg2"),
        ("nonce", Signing.Json.str "n1"), ("timestamp", Signing.Json.num 6)])
      { signature := "sg2", timestamp := 6, nonce := "n1", userID := "", origin := "" }
      6 (by decide) rfl (by decide) (by decide) (by decide)).1,
   (c10_nonce_burned_on_invalid_signature (fun _ => some "") (fun _ _ => false)
      { nonces := [], ttl := 60, lastGC := 0 } rfl
      (Signing.Json.obj [("signature", Signing.Json.str "sg"),
        ("nonce", Signing.Json.str "n1"), ("timestamp", Signing.Json.num 5)]) 5
      { signature := "sg", timestamp := 5, nonce := "n1", userID := "", origin := "" }
      (by decide) (by decide) (by decide) (by decide) (by intro t h; simp at h)
      (Or.inr (fun _ _ => rfl))
      (Signing.Json.obj [("signature", Signing.Json.str "sg2"),
        ("nonce", Signing.Json.str "n1"), ("timestamp", Signing.Json.num 6)])
      { signature := "sg2", timestamp := 6, nonce := "n1", userID := "", origin := "" }
      6 (by decide) rfl (by decide) (by decide) (by decide)).2.2.2.2⟩

/-! ### C2: canonical independence — field-list algebra -/

namespace Signing

theorem sortFields_perm (l : List (String × Json)) : List.Perm (sortFields l) l :=
  List.perm_insertionSort keyLE l

theorem sortFields_sorted (l : List (String × Json)) : (sortFields l).Sorted keyLE :=
  List.sorted_insertionSort keyLE l

theorem keysNodup_of_perm {l l' : List (String × Json)} (h : List.Perm l l')
    (h' : keysNodup l') : keysNodup l :=
  ((h.map Prod.fst).nodup_iff).mpr h'

theorem keysNodup_sortFields {l : List (String × Json)} (h : keysNodup l) :
    keysNodup (sortFields l) :=
  keysNodup_of_perm (sortFields_perm l) h

theorem keyMem_iff {k : String} {l : List (String × Json)} :
    keyMem k l = true ↔ k ∈ l.map Prod.fst := by
  unfold keyMem
  rw [List.any_eq_true, List.mem_map]
  constructor
  · rintro ⟨p, hp, he⟩
    exact ⟨p, hp, beq_iff_eq.mp he⟩
  · rintro ⟨p, hp, he⟩
    exact ⟨p, hp, beq_iff_eq.mpr he⟩

theorem dedupLast_sublist : ∀ l : List (String × Json), (dedupLast l).Sublist l
  | [] => List.Sublist.refl _
  | p :: rest => by
    rw [dedupLast]
    by_cases h : keyMem p.1 rest = true
    · simp only [h, if_true]
      exact (dedupLast_sublist rest).cons p
    · simp only [h, if_false]
      exact (dedupLast_sublist rest).cons₂ p

theorem keysNodup_dedupLast : ∀ l : List (String × Json), keysNodup (dedupLast l)
  | [] => List.nodup_nil
  | p :: rest => by
    rw [dedupLast]
    rcases h : keyMem p.1 rest with _ | _
    · simp only [h, Bool.false_eq_true, if_false]
      unfold keysNodup
      rw [List.map_cons, List.nodup_cons]
      refine ⟨?_, keysNodup_dedupLast rest⟩
      intro hmem
      have : keyMem p.1 rest = true := keyMem_iff.mpr
        ((List.Sublist.map Prod.fst (dedupLast_sublist rest)).mem hmem)
      rw [h] at this
      cases this
    · simp only [h, if_true]
      exact keysNodup_dedupLast rest

theorem dedupLast_eq_self_of_nodup : ∀ {l : List (String × Json)}, keysNodup l →
    dedupLast l = l
  | [], _ => rfl
  | p :: rest, h => by
    unfold keysNodup at h
    rw [List.map_cons, List.nodup_cons] at h
    have hk : keyMem p.1 rest = false := by
      rcases hkm : keyMem p.1 rest with _ | _
      · rfl
      · exact absurd (keyMem_iff.mp hkm) h.1
    rw [dedupLast, hk]
    simp only [Bool.false_eq_true, if_false]
    rw [dedupLast_eq_self_of_nodup h.2]

theorem keysNodup_filter {l : List (String × Json)} (p : (String × Json) → Bool)
    (h : keysNodup l) : keysNodup (l.filter p) :=
  ((List.filter_sublist l).map Prod.fst).nodup h

theorem keysNodup_setField {l : List (String × Json)} {k : String} {v : Json}
    (h : keysNodup l) : keysNodup (setField l k v) := by
  unfold setField keysNodup
  rw [List.map_append, List.map_singleton]
  rw [List.nodup_append]
  refine ⟨keysNodup_filter _ h, List.nodup_singleton _, ?_⟩
  intro a ha hb
  simp only [List.mem_singleton] at hb
  subst hb
  obtain ⟨q, hq, hqa⟩ := List.mem_map.mp ha
  have := (List.mem_filter.mp hq).2
  rw [hqa] at this
  simp [bne_iff_ne] at this

theorem lookupLast_eq_none_of_not_key :
    ∀ {l : List (String × Json)} {k : String}, k ∉ l.map Prod.fst →
      lookupLast l k = none
  | [], _, _ => rfl
  | p :: rest, k, h => by
    rw [List.map_cons, List.mem_cons] at h
    push_neg at h
    rw [lookupLast, lookupLast_eq_none_of_not_key h.2]
    have : (p.1 == k) = false := beq_eq_false_iff_ne.mpr (fun he => h.1 he.symm)
    simp [this]

theorem lookupLast_of_mem_nodup :
    ∀ {l : List (String × Json)} {k : String} {v : Json}, keysNodup l →
      (k, v) ∈ l → lookupLast l k = some v
  | [], _, _, _, hm => absurd hm (List.not_mem_nil _)
  | p :: rest, k, v, hnd, hm => by
    unfold keysNodup at hnd
    rw [List.map_cons, List.nodup_cons] at hnd
    cases hm with
    | head =>
      have hnone : lookupLast rest k = none := lookupLast_eq_none_of_not_key hnd.1
      rw [lookupLast, hnone]
      simp
    | tail _ hm' =>
      have hsome := lookupLast_of_mem_nodup hnd.2 hm'
      rw [lookupLast, hsome]

theorem mem_setField_self (l : List (String × Json)) (k : String) (v : Json) :
    (k, v) ∈ setField l k v := by
  unfold setField
  exact List.mem_append_right _ (List.mem_singleton.mpr rfl)

theorem mem_setField_of_ne {l : List (String × Json)} {k' : String} {v' : Json}
    (h : (k', v') ∈ l) (k : String) (v : Json) (hne : k' ≠ k) :
    (k', v') ∈ setField l k v := by
  unfold setField
  apply List.mem_append_left
  exact List.mem_filter.mpr ⟨h, by simpa [bne_iff_ne] using hne⟩

theorem removeSigningKeys_setField {l : List (String × Json)} {k : String} {v : Json}
    (hk : signingKeys.contains k = true) :
    removeSigningKeys (setField l k v) = removeSigningKeys l := by
  unfold removeSigningKeys setField
  rw [List.filter_append, List.filter_filter]
  have hkm : k ∈ signingKeys := by simpa using hk
  have h2 : List.filter (fun p => !signingKeys.contains p.1) [(k, v)] = [] := by
    simp [List.filter, hkm]
  rw [h2, List.append_nil]
  apply List.filter_congr
  intro a _
  rcases hc : signingKeys.contains a.1 with _ | _
  · have hne : a.1 ≠ k := by
      intro he
      rw [he, hk] at hc
      cases hc
    simp [bne_iff_ne, hne]
  · simp

theorem removeSigningKeys_setSigningFields (l : List (String × Json)) (sig : String)
    (t : Int) (n u o : String) :
    removeSigningKeys (setSigningFields l sig t n u o) = removeSigningKeys l := by
  unfold setSigningFields
  rw [removeSigningKeys_setField (by decide), removeSigningKeys_setField (by decide),
    removeSigningKeys_setField (by decide), removeSigningKeys_setField (by decide),
    removeSigningKeys_setField (by decide)]

theorem removeSigningKeys_eq_self {l : List (String × Json)}
    (h : ∀ p ∈ l, signingKeys.contains p.1 = false) : removeSigningKeys l = l := by
  unfold removeSigningKeys
  rw [List.filter_eq_self]
  intro a ha
  rw [h a ha]
  rfl

theorem sorted_strict_of_nodup {l : List (String × Json)} (hs : l.Sorted keyLE)
    (hnd : keysNodup l) : l.Pairwise (fun p q => p.1 < q.1) := by
  unfold keysNodup List.Nodup at hnd
  rw [List.pairwise_map] at hnd
  have hcomb := List.Pairwise.and hs hnd
  exact hcomb.imp (fun h => lt_of_le_of_ne h.1 h.2)

theorem sortFields_eq_of_perm {l l' : List (String × Json)} (hnd : keysNodup l)
    (hperm : List.Perm l l') : sortFields l = sortFields l' := by
  haveI : IsAntisymm (String × Json) (fun p q => p.1 < q.1) :=
    ⟨fun a b h1 h2 => absurd (lt_trans h1 h2) (lt_irrefl _)⟩
  have hp : List.Perm (sortFields l) (sortFields l') :=
    ((sortFields_perm l).trans hperm).trans (sortFields_perm l').symm
  have hnd' : keysNodup l' := keysNodup_of_perm hperm.symm hnd
  exact List.eq_of_perm_of_sorted hp
    (sorted_strict_of_nodup (sortFields_sorted l) (keysNodup_sortFields hnd))
    (sorted_strict_of_nodup (sortFields_sorted l') (keysNodup_sortFields hnd'))

theorem sortFields_eq_self_of_sorted {l : List (String × Json)} (hs : l.Sorted keyLE) :
    sortFields l = l :=
  hs.insertionSort_eq

theorem keysNodup_setSigningFields {fields : List (String × Json)} (h : keysNodup fields)
    (sig : String) (t : Int) (n u o : String) :
    keysNodup (setSigningFields fields sig t n u o) := by
  unfold setSigningFields
  exact keysNodup_setField (keysNodup_setField (keysNodup_setField
    (keysNodup_setField (keysNodup_setField h))))

theorem mem_setSigningFields (fields : List (String × Json)) (sig : String)
    (t : Int) (n u o : String) :
    ("signature", Json.str sig) ∈ setSigningFields fields sig t n u o ∧
    ("timestamp", Json.num t) ∈ setSigningFields fields sig t n u o ∧
    ("nonce", Json.str n) ∈ setSigningFields fields sig t n u o ∧
    ("user_id", Json.str u) ∈ setSigningFields fields sig t n u o ∧
    ("origin", Json.str o) ∈ setSigningFields fields sig t n u o := by
  unfold setSigningFields
  refine ⟨?_, ?_, ?_, ?_, ?_⟩
  · apply mem_setField_of_ne _ _ _ (by decide)
    apply mem_setField_of_ne _ _ _ (by decide)
    apply mem_setField_of_ne _ _ _ (by decide)
    apply mem_setField_of_ne _ _ _ (by decide)
    exact mem_setField_self _ _ _
  · apply mem_setField_of_ne _ _ _ (by decide)
    apply mem_setField_of_ne _ _ _ (by decide)
    apply mem_setField_of_ne _ _ _ (by decide)
    exact mem_setField_self _ _ _
  · apply mem_setField_of_ne _ _ _ (by decide)
    apply mem_setField_of_ne _ _ _ (by decide)
    exact mem_setField_self _ _ _
  · apply mem_setField_of_ne _ _ _ (by decide)
    exact mem_setField_self _ _ _
  · exact mem_setField_self _ _ _

theorem parse_signed {fields : List (String × Json)} (h : keysNodup fields)
    (sig : String) (t : Int) (n u o : String) :
    parseEnvelope (.obj (sortFields (setSigningFields fields sig t n u o))) =
      some { signature := sig, timestamp := t, nonce := n, userID := u, origin := o } := by
  have hnd5 : keysNodup (setSigningFields fields sig t n u o) :=
    keysNodup_setSigningFields h sig t n u o
  have hndF : keysNodup (sortFields (setSigningFields fields sig t n u o)) :=
    keysNodup_sortFields hnd5
  obtain ⟨m1, m2, m3, m4, m5⟩ := mem_setSigningFields fields sig t n u o
  have hmem : ∀ p, p ∈ setSigningFields fields sig t n u o →
      p ∈ sortFields (setSigningFields fields sig t n u o) :=
    fun p hp => ((sortFields_perm _).mem_iff).mpr hp
  have l1 := lookupLast_of_mem_nodup hndF (hmem _ m1)
  have l2 := lookupLast_of_mem_nodup hndF (hmem _ m2)
  have l3 := lookupLast_of_mem_nodup hndF (hmem _ m3)
  have l4 := lookupLast_of_mem_nodup hndF (hmem _ m4)
  have l5 := lookupLast_of_mem_nodup hndF (hmem _ m5)
  simp [parseEnvelope, getStringField, getIntField, l1, l2, l3, l4, l5]

theorem noSigKeys_of_commandObject {f0 : List (String × Json)}
    (hc : commandObject (.obj f0) = true) :
    ∀ p ∈ sortFields (dedupLast f0), signingKeys.contains p.1 = false := by
  intro p hmem
  have hp0 : p ∈ f0 :=
    (dedupLast_sublist f0).mem (((sortFields_perm _).mem_iff).mp hmem)
  unfold commandObject at hc
  rw [List.all_eq_true] at hc
  have := hc p hp0
  simpa using this

theorem strip_signed {f0 : List (String × Json)} (hc : commandObject (.obj f0) = true)
    (sig : String) (t : Int) (n u o : String) :
    stripSigningFields (.obj (sortFields
        (setSigningFields (sortFields (dedupLast f0)) sig t n u o))) =
      .obj (sortFields (dedupLast f0)) := by
  have hndFields : keysNodup (sortFields (dedupLast f0)) :=
    keysNodup_sortFields (keysNodup_dedupLast f0)
  have hnosig := noSigKeys_of_commandObject hc
  have hnd5 : keysNodup (setSigningFields (sortFields (dedupLast f0)) sig t n u o) :=
    keysNodup_setSigningFields hndFields sig t n u o
  have hndS : keysNodup (sortFields
      (setSigningFields (sortFields (dedupLast f0)) sig t n u o)) :=
    keysNodup_sortFields hnd5
  show Json.obj (sortFields (removeSigningKeys (dedupLast (sortFields
      (setSigningFields (sortFields (dedupLast f0)) sig t n u o))))) =
    Json.obj (sortFields (dedupLast f0))
  rw [dedupLast_eq_self_of_nodup hndS]
  have hrm : List.Perm (removeSigningKeys (sortFields
      (setSigningFields (sortFields (dedupLast f0)) sig t n u o)))
      (sortFields (dedupLast f0)) := by
    have h1 : List.Perm
        (removeSigningKeys (sortFields
          (setSigningFields (sortFields (dedupLast f0)) sig t n u o)))
        (removeSigningKeys (setSigningFields (sortFields (dedupLast f0)) sig t n u o)) :=
      (sortFields_perm (setSigningFields (sortFields (dedupLast f0)) sig t n u o)).filter _
    rw [removeSigningKeys_setSigningFields, removeSigningKeys_eq_self hnosig] at h1
    exact h1
  have hndrm : keysNodup (removeSigningKeys (sortFields
      (setSigningFields (sortFields (dedupLast f0)) sig t n u o))) :=
    keysNodup_filter _ hndS
  rw [sortFields_eq_of_perm hndrm hrm,
    sortFields_eq_self_of_sorted (sortFields_sorted (dedupLast f0))]

theorem Verify_of_Sign (d : String → Option String) (e : String → String → Bool)
    (edSign : String → String) (encodeSig : String → String)
    (hdec : ∀ x, d (encodeSig x) = some x)
    (hver : ∀ m, e m (edSign m) = true)
    (hnonempty : ∀ m, encodeSig (edSign m) ≠ "")
    {c : Json} (hc : commandObject c = true) (t : Int) (n u o : String)
    {w : Json} (hw : Sign edSign encodeSig c t n u o = some w)
    (now : Int) (st : NonceStore) :
    (Verifier.Verify d e now (some w) st).2.1.valid =
      (!(n == "") && !(decide (ageOf now t > MaxTimestampAge)) && (st.Add n now).1) := by
  rcases c with _ | b | m | s | elems | f0
  · simp [commandObject] at hc
  · simp [commandObject] at hc
  · simp [commandObject] at hc
  · simp [commandObject] at hc
  · simp [commandObject] at hc
  have hw' : w = .obj (sortFields (setSigningFields (sortFields (dedupLast f0))
      (encodeSig (edSign (canonicalOf (.obj (sortFields (dedupLast f0))) t n u o)))
      t n u o)) := by
    rw [show Sign edSign encodeSig (.obj f0) t n u o =
      some (.obj (sortFields (setSigningFields (sortFields (dedupLast f0))
        (encodeSig (edSign (canonicalOf (.obj (sortFields (dedupLast f0))) t n u o)))
        t n u o))) from rfl] at hw
    exact (Option.some.injEq _ _ ▸ hw).symm
  have hndFields : keysNodup (sortFields (dedupLast f0)) :=
    keysNodup_sortFields (keysNodup_dedupLast f0)
  have hparse : parseEnvelope w = some
      { signature := encodeSig (edSign (canonicalOf (.obj (sortFields (dedupLast f0)))
          t n u o)),
        timestamp := t, nonce := n, userID := u, origin := o } := by
    rw [hw']
    exact parse_signed hndFields _ t n u o
  have hsigne : ((encodeSig (edSign (canonicalOf (.obj (sortFields (dedupLast f0)))
      t n u o))) == "") = false :=
    beq_eq_false_iff_ne.mpr (hnonempty _)
  by_cases h2 : (n == "") = true
  · simp [Verifier.Verify, hparse, hsigne, h2]
  by_cases h3 : ageOf now t > MaxTimestampAge
  · simp [Verifier.Verify, hparse, hsigne, h2, h3]
  rcases hAdd : st.Add n now with ⟨b, store'⟩
  rcases b with _ | _
  · simp [Verifier.Verify, hparse, hsigne, h2, h3, hAdd]
  · have hstrip : stripSigningFields w = .obj (sortFields (dedupLast f0)) := by
      rw [hw']
      exact strip_signed hc _ t n u o
    have hds := hdec (edSign (canonicalOf (.obj (sortFields (dedupLast f0))) t n u o))
    have hev : e (canonicalOf (stripSigningFields w) t n u o)
        (edSign (canonicalOf (.obj (sortFields (dedupLast f0))) t n u o)) = true := by
      rw [hstrip]
      exact hver _
    simp [Verifier.Verify, hparse, hsigne, h2, h3, hAdd, hds, hev]

end Signing

/-- Claim C2: two JSON encodings of the same command object differing only
in object key ordering (at any nesting depth — formalised as equal
recursive canonicalisations), each signed by `Sign` and wrapped in an
envelope identical in timestamp, nonce, user and origin, are verified
identically from any one verifier state: both valid or both rejected.  The
hypotheses state that base64 decode inverts encode, that the Ed25519
verifier accepts the signer's signatures, that encoded signatures are
non-empty, and that the command objects carry none of the five envelope
field names at top level. -/
theorem c2_canonical_independence (d : String → Option String)
    (e : String → String → Bool) (edSign : String → String)
    (encodeSig : String → String)
    (hdec : ∀ x, d (encodeSig x) = some x)
    (hver : ∀ m, e m (edSign m) = true)
    (hnonempty : ∀ m, encodeSig (edSign m) ≠ "")
    (enc1 enc2 : Signing.Json) (hre : Signing.KeyReorder enc1 enc2)
    (hc1 : Signing.commandObject enc1 = true)
    (hc2 : Signing.commandObject enc2 = true)
    (t : Int) (n u o : String) (w1 w2 : Signing.Json)
    (hw1 : Signing.Sign edSign encodeSig enc1 t n u o = some w1)
    (hw2 : Signing.Sign edSign encodeSig enc2 t n u o = some w2)
    (now : Int) (st : Signing.NonceStore) :
    (Signing.Verifier.Verify d e now (some w1) st).2.1.valid =
      (Signing.Verifier.Verify d e now (some w2) st).2.1.valid := by
  rw [Signing.Verify_of_Sign d e edSign encodeSig hdec hver hnonempty hc1 t n u o hw1
      now st,
    Signing.Verify_of_Sign d e edSign encodeSig hdec hver hnonempty hc2 t n u o hw2
      now st]

/-- Witness for C2 at two reorderings of the object with fields a, b. -/
theorem c2_canonical_independence_witness :
    (Signing.Verifier.Verify (fun s => some s) (fun _ s => s == "SIG")
      5 (Signing.Sign (fun _ => "SIG") (fun s => s)
        (Signing.Json.obj [("b", Signing.Json.num 2), ("a", Signing.Json.num 1)])
        5 "n1" "admin" "saas") { nonces := [], ttl := 60, lastGC := 0 }).2.1.valid =
    (Signing.Verifier.Verify (fun s => some s) (fun _ s => s == "SIG")
      5 (Signing.Sign (fun _ => "SIG") (fun s => s)
        (Signing.Json.obj [("a", Signing.Json.num 1), ("b", Signing.Json.num 2)])
        5 "n1" "admin" "saas") { nonces := [], ttl := 60, lastGC := 0 }).2.1.valid := by
  obtain ⟨w1, hw1⟩ : ∃ w, Signing.Sign (fun _ => "SIG") (fun s => s)
      (Signing.Json.obj [("b", Signing.Json.num 2), ("a", Signing.Json.num 1)])
      5 "n1" "admin" "saas" = some w := ⟨_, rfl⟩
  obtain ⟨w2, hw2⟩ : ∃ w, Signing.Sign (fun _ => "SIG") (fun s => s)
      (Signing.Json.obj [("a", Signing.Json.num 1), ("b", Signing.Json.num 2)])
      5 "n1" "admin" "saas" = some w := ⟨_, rfl⟩
  rw [hw1, hw2]
  have hver : ∀ m : String, (fun (_ s : String) => s == "SIG") m
      ((fun _ : String => "SIG") m) = true := by
    intro m
    show ("SIG" == "SIG") = true
    decide
  have hnonempty : ∀ m : String, (fun s : String => s) ((fun _ : String => "SIG") m)
      ≠ "" := by
    intro m
    show ("SIG" : String) ≠ ""
    decide
  have hre : Signing.KeyReorder
      (Signing.Json.obj [("b", Signing.Json.num 2), ("a", Signing.Json.num 1)])
      (Signing.Json.obj [("a", Signing.Json.num 1), ("b", Signing.Json.num 2)]) := by
    show Signing.Json.canon _ = Signing.Json.canon _
    have hba : ¬ Signing.keyLE ("b", Signing.Json.num 2) ("a", Signing.Json.num 1) := by
      show ¬ (("b" : String) ≤ "a")
      intro h
      exact absurd (String.le_iff_toList_le.mp h) (by decide)
    have hab : Signing.keyLE ("a", Signing.Json.num 1) ("b", Signing.Json.num 2) := by
      show (("a" : String) ≤ "b")
      exact String.le_iff_toList_le.mpr (by decide)
    simp [Signing.Json.canon, Signing.Json.canonObj, Signing.sortFields,
      List.insertionSort, List.orderedInsert, hba, hab]
  exact c2_canonical_independence (fun s => some s) (fun _ s => s == "SIG")
    (fun _ => "SIG") (fun s => s) (fun _ => rfl) hver hnonempty _ _ hre
    (by decide) (by decide) 5 "n1" "admin" "saas"
    w1 w2 hw1 hw2 5 { nonces := [], ttl := 60, lastGC := 0 }

end TbDiscover
